import Mathlib

/-!
# Verification of the pvtlib AGA8 façade (`pvtlib/aga8.py`)

This file gives a shallow embedding of the Python module `pvtlib/aga8.py`:
the unit normalizer (`_pressure_unit_conversion`, `_temperature_unit_conversion`),
the composition mapper (`to_aga8_composition`), the `AGA8.mix` composition mixer,
and the orchestration skeletons of `AGA8.calculate_from_PT` / `calculate_from_PH`
/ `calculate_from_PS`.

Modelling conventions:

* Python `float` values are modelled by `FVal`: either `nan` (IEEE not-a-number)
  or `val q` with `q : ℚ`.  Finite-float arithmetic is modelled exactly over `ℚ`
  (the embedding expresses real-number semantics of the formulas; rounding of
  IEEE doubles is out of scope).  `nan` propagates through every arithmetic
  operation and makes every ordered comparison false, as in IEEE 754.
* Python dicts are modelled as association lists `List (String × _)`; keys of a
  Python dict are distinct, lookups take the first matching entry, and
  assignment (`d[k] = v`) updates the existing entry or appends a new one.
* A raised Python exception is modelled by an explicit error constructor.
* The external `pyaga8` engine (not part of this repository) is a black box:
  theorems about `calculate_from_PT` and friends are parametrized over an
  arbitrary engine read-out function.
-/

/-- A Python float restricted to the values relevant here: either IEEE
not-a-number, or an exact rational standing for a finite float. -/
inductive FVal where
  | nan : FVal
  | val : ℚ → FVal
deriving DecidableEq, Repr

namespace FVal

/-- Addition; `nan` propagates (IEEE semantics). -/
def add : FVal → FVal → FVal
  | val a, val b => val (a + b)
  | _, _ => nan

/-- Subtraction; `nan` propagates. -/
def sub : FVal → FVal → FVal
  | val a, val b => val (a - b)
  | _, _ => nan

/-- Multiplication; `nan` propagates. -/
def mul : FVal → FVal → FVal
  | val a, val b => val (a * b)
  | _, _ => nan

/-- Division; `nan` propagates.  Division of a finite value by a finite value
is exact rational division; the callers below only divide by values they have
checked to be nonzero (Python raises `ZeroDivisionError` on `x / 0.0`, and the
embedding models that check explicitly at each call site). -/
def div : FVal → FVal → FVal
  | val a, val b => val (a / b)
  | _, _ => nan

instance : Add FVal := ⟨add⟩
instance : Sub FVal := ⟨sub⟩
instance : Mul FVal := ⟨mul⟩
instance : Div FVal := ⟨div⟩

/-- The `np.isnan` / `math.isnan` test. -/
def isNan : FVal → Bool
  | nan => true
  | val _ => false

@[simp] theorem isNan_nan : isNan nan = true := rfl

@[simp] theorem isNan_val (q : ℚ) : isNan (val q) = false := rfl

@[simp] theorem val_add (a b : ℚ) : (val a) + (val b) = val (a + b) := rfl

@[simp] theorem val_sub (a b : ℚ) : (val a) - (val b) = val (a - b) := rfl

@[simp] theorem val_mul (a b : ℚ) : (val a) * (val b) = val (a * b) := rfl

@[simp] theorem val_div (a b : ℚ) : (val a) / (val b) = val (a / b) := rfl

@[simp] theorem nan_add (x : FVal) : nan + x = nan := rfl

@[simp] theorem nan_mul (x : FVal) : nan * x = nan := rfl

@[simp] theorem nan_sub (x : FVal) : nan - x = nan := rfl

@[simp] theorem nan_div (x : FVal) : nan / x = nan := rfl

@[simp] theorem add_nan (x : FVal) : x + nan = nan := by cases x <;> rfl

@[simp] theorem mul_nan (x : FVal) : x * nan = nan := by cases x <;> rfl

@[simp] theorem sub_nan (x : FVal) : x - nan = nan := by cases x <;> rfl

@[simp] theorem div_nan (x : FVal) : x / nan = nan := by cases x <;> rfl

theorem isNan_mul_left {x y : FVal} (h : x.isNan = true) : (x * y).isNan = true := by
  cases x <;> simp_all

theorem isNan_add_left {x y : FVal} (h : x.isNan = true) : (x + y).isNan = true := by
  cases x <;> simp_all

end FVal

/-- Sum of a list of Python floats, as computed by Python `sum` (left fold
starting from `0`); `nan` anywhere makes the sum `nan`. -/
def sumFVals (l : List FVal) : FVal := l.foldl FVal.add (FVal.val 0)

/-- Python `str.lower()` for the ASCII unit strings used here. -/
def pyLower (s : String) : String := String.mk (s.toList.map Char.toLower)

/-- Embedding of `_pressure_unit_conversion` (`aga8.py`, lines 646–687):
convert a pressure value to kPa according to the unit string, raising
(`Except.error`) on an unsupported unit.  The decimal constants are the exact
rationals written in the source. -/
def pressure_unit_conversion (pressure_value : FVal) (pressure_unit : String) :
    Except String FVal :=
  if pyLower pressure_unit = "bara" then
    .ok (pressure_value * FVal.val 100)
  else if pyLower pressure_unit = "pa" then
    .ok (pressure_value / FVal.val 1000)
  else if pyLower pressure_unit = "psi" then
    .ok (pressure_value * FVal.val (6.89476 : ℚ))
  else if pyLower pressure_unit = "psia" then
    .ok ((pressure_value + FVal.val (14.6959488 : ℚ)) * FVal.val (6.89476 : ℚ))
  else if pyLower pressure_unit = "psig" then
    .ok (pressure_value * FVal.val (6.89476 : ℚ) + FVal.val (101.325 : ℚ))
  else if pyLower pressure_unit = "barg" then
    .ok (pressure_value * FVal.val 100 + FVal.val (101.325 : ℚ))
  else if pyLower pressure_unit = "mpa" then
    .ok (pressure_value * FVal.val 1000)
  else if pyLower pressure_unit = "kpa" then
    .ok pressure_value
  else
    .error ("Pressure unit " ++ pressure_unit ++ " not supported!")

/-- Embedding of `_temperature_unit_conversion` (`aga8.py`, lines 690–719):
convert a temperature value to Kelvin, raising on an unsupported unit. -/
def temperature_unit_conversion (temperature_value : FVal) (temperature_unit : String) :
    Except String FVal :=
  if pyLower temperature_unit = "c" then
    .ok (temperature_value + FVal.val (273.15 : ℚ))
  else if pyLower temperature_unit = "f" then
    .ok ((temperature_value - FVal.val 32) * FVal.val 5 / FVal.val 9 + FVal.val (273.15 : ℚ))
  else if pyLower temperature_unit = "k" then
    .ok temperature_value
  else
    .error ("Temperature unit " ++ temperature_unit ++ " not supported!")

/-- The fixed AGA8 component list (`aga8.py` line 86 and line 742), in source
order. -/
def aga8_components : List String :=
  ["C1", "N2", "CO2", "C2", "C3", "iC4", "nC4", "iC5", "nC5",
   "nC6", "nC7", "nC8", "nC9", "nC10", "H2", "O2", "CO",
   "H2O", "H2S", "He", "Ar"]

/-- The equation-of-state selection (`AGA8.__init__`). -/
inductive EOSEquation where
  | gerg2008 : EOSEquation
  | detail : EOSEquation
deriving DecidableEq, Repr

/-- Molecular-weight tables from `AGA8._initialize_molecular_weights`
(`aga8.py`, lines 91–138), indexed in the order of `aga8_components`.  The
decimal literals are the exact rationals written in the source. -/
def molecular_weights : EOSEquation → Fin 21 → ℚ
  | .gerg2008 => fun j =>
      [(16.04246 : ℚ), 28.0134, 44.0095, 30.06904, 44.09562, 58.1222, 58.1222,
       72.14878, 72.14878, 86.17536, 100.20194, 114.22852, 128.2551, 142.28168,
       2.01588, 31.9988, 28.0101, 18.01528, 34.08088, 4.002602, 39.948].get
        (Fin.cast (by decide) j)
  | .detail => fun j =>
      [(16.043 : ℚ), 28.0135, 44.01, 30.07, 44.097, 58.123, 58.123,
       72.15, 72.15, 86.177, 100.204, 114.231, 128.258, 142.285,
       2.0159, 31.9988, 28.01, 18.0153, 34.082, 4.0026, 39.948].get
        (Fin.cast (by decide) j)

theorem molecular_weights_pos (eq : EOSEquation) (j : Fin 21) :
    0 < molecular_weights eq j := by
  cases eq <;> fin_cases j <;> norm_num [molecular_weights]

/-- Python-dict lookup on an association list: first entry with the key. -/
def dictFind? {α : Type} (d : List (String × α)) (k : String) : Option α :=
  (d.find? (fun p => p.1 == k)).map (·.2)

/-- Python-dict membership test (`k in d`). -/
def dictHas {α : Type} (d : List (String × α)) (k : String) : Bool :=
  d.any (fun p => p.1 == k)

/-- Python-dict assignment `d[k] = v`: update the (unique) existing entry in
place, else append a new one at the end (Python dicts preserve insertion
order). -/
def dictSet {α : Type} (d : List (String × α)) (k : String) (v : α) :
    List (String × α) :=
  match d with
  | [] => [(k, v)]
  | p :: rest => if p.1 == k then (k, v) :: rest else p :: dictSet rest k v

/-- The whitespace characters Python `int` ignores around a numeral, within
the ASCII range (code points below 128): horizontal tab through carriage
return (9–13), the file, group, record and unit separators (28–31), and the
space (32).  Python additionally accepts non-ASCII Unicode whitespace, which
lies outside the ASCII key domain to which the mapper theorems are
restricted. -/
def pyIsSpace (c : Char) : Bool :=
  (9 ≤ c.toNat && c.toNat ≤ 13) || (28 ≤ c.toNat && c.toNat ≤ 32)

/-- Continuation of Python `int` parsing after at least one decimal digit has
been read, `acc` being the value read so far: a further digit extends the
numeral; an underscore is a digit-group separator and must be followed
directly by another digit (so `int` accepts the string 1_0, value 10, but
rejects 1__0 and a trailing underscore); the first character that is neither
a digit nor an underscore must, together with everything after it, be
trailing whitespace.  `none` models the `ValueError` Python raises
otherwise. -/
def pyIntDigits : ℕ → List Char → Option ℕ
  | acc, [] => some acc
  | acc, [c] =>
    if c.isDigit then some (10 * acc + (c.toNat - 48))
    else if pyIsSpace c then some acc
    else none
  | acc, c :: c2 :: cs =>
    if c.isDigit then pyIntDigits (10 * acc + (c.toNat - 48)) (c2 :: cs)
    else if c = '_' then
      (if c2.isDigit then pyIntDigits (10 * acc + (c2.toNat - 48)) cs else none)
    else if pyIsSpace c && pyIsSpace c2 && cs.all pyIsSpace then some acc
    else none

/-- Python `int(s)` for the strings reachable from the mapper: the branch
guard of the source has already checked that the first character of `s` is a
decimal digit, so the leading whitespace and the sign that `int` would
otherwise accept cannot occur here.  From a leading digit, `int` accepts
further decimal digits with single underscore separators between digits and
optional trailing whitespace (so the string 1_0 parses to 10 and the string
10 followed by a newline parses to 10); `none` models the `ValueError`
Python raises on any other string.  Exact for ASCII strings; on non-ASCII
strings Python additionally accepts Unicode decimal digits and whitespace,
which is why the mapper routing theorems restrict keys to the ASCII
range. -/
def pyInt? (cs : List Char) : Option ℕ :=
  match cs with
  | [] => none
  | c :: rest => if c.isDigit then pyIntDigits (c.toNat - 48) rest else none

/-- Where one input key of `to_aga8_composition` (`aga8.py`, lines 750–776) is
routed.  `assign ek` means the normalized fraction is written to dict key `ek`;
the error constructors model the three distinct Python exceptions that the
per-key logic can raise. -/
inductive KeyTarget where
  | assign (engineKey : String)
  | illegal (name : String)
  | indexError
  | valueError
deriving DecidableEq, Repr

/-- Routing of one canonical token (the input key with any hyphen suffix
already stripped) by `to_aga8_composition` (`aga8.py`, lines 755–776),
parametrized by the membership test used in the fallback branch (in the
source: `comp_name in list(aga8_composition_dict.keys())`, a test against the
*current* dict).  An empty token or the bare token C hits `comp_name[0]` /
`comp_name[1]` and raises `IndexError`; a token starting with C plus a digit
parses the rest with `int` (`pyInt?`), raising `ValueError` when the rest is
not an integer literal.  Python `str.isnumeric` on the single character
`comp_name[1]` is modelled as `Char.isDigit`; this and `pyInt?` are exact
for ASCII keys (for ASCII characters `str.isnumeric` holds exactly of the
decimal digits), and the routing theorems restrict keys to the ASCII range
accordingly. -/
def resolveListWith (isKey : String → Bool) (comp_name : String) :
    List Char → KeyTarget
  | [] => .indexError
  | c0 :: rest =>
    if c0 = 'C' then
      match rest with
      | [] => .indexError
      | c1 :: _ =>
        if c1.isDigit then
          match pyInt? rest with
          | none => .valueError
          | some n =>
            if n = 6 ∨ n = 7 ∨ n = 8 ∨ n = 9 then .assign ("nC" ++ toString n)
            else if 10 ≤ n then .assign "nC10"
            else .assign comp_name
        else if isKey comp_name then .assign comp_name else .illegal comp_name
    else if isKey comp_name then .assign comp_name else .illegal comp_name

/-- Routing of one canonical token: dispatch on its character list. -/
def resolveTokenWith (isKey : String → Bool) (comp_name : String) : KeyTarget :=
  resolveListWith isKey comp_name comp_name.toList

/-- Python `component.split(sep=chr(45))[0]`: the prefix of the key before the
first hyphen (the whole key when it has no hyphen; empty for a leading
hyphen). -/
def canonicalToken (component : String) : String :=
  String.mk (component.toList.takeWhile (fun c => c ≠ '-'))

/-- Embedding of the per-key routing logic of `to_aga8_composition`
(`aga8.py`, lines 753–776): the key is stripped of any suffix after a hyphen,
then the token is routed. -/
def resolveKeyWith (isKey : String → Bool) (component : String) : KeyTarget :=
  resolveTokenWith isKey (canonicalToken component)

/-- The result dict of `to_aga8_composition` starts with every AGA8 component
mapped to `0.0` (`aga8.py`, line 744). -/
def aga8_initial_dict : List (String × FVal) :=
  aga8_components.map (fun c => (c, FVal.val 0))

/-- The per-key routing against the initial dict keys (= the fixed component
list); the dynamic test of the source coincides with this on every dict the
mapper can build, which the lemmas below establish where needed. -/
def resolveKey (component : String) : KeyTarget :=
  resolveKeyWith (fun t => dictHas aga8_initial_dict t) component

/-- Outcome of `to_aga8_composition`: the produced name-to-fraction dict, or
one of the four Python exceptions the function can raise. -/
inductive MapperOutcome where
  | ok (dict : List (String × FVal))
  | illegalComponent (name : String)
  | indexError
  | valueError
  | zeroDivisionError
deriving DecidableEq, Repr

/-- The main loop of `to_aga8_composition` (`aga8.py`, lines 750–776): for each
input entry in order, first divide the value by the (fixed) composition sum —
Python raises `ZeroDivisionError` here when the sum is exactly `0.0`, before
any name validation of that entry — then route the normalized fraction into
the dict per the key logic, the fallback branch testing membership in the
current dict. -/
def mapperGo (S : FVal) : List (String × FVal) → List (String × FVal) → MapperOutcome
  | d, [] => .ok d
  | d, (k, v) :: rest =>
    if S = FVal.val 0 then
      .zeroDivisionError
    else
      match resolveKeyWith (fun t => dictHas d t) k with
      | .assign ek => mapperGo S (dictSet d ek (v / S)) rest
      | .illegal n => .illegalComponent n
      | .indexError => .indexError
      | .valueError => .valueError

/-- Embedding of `to_aga8_composition` (`aga8.py`, lines 722–822), returning
the name-to-fraction dict (the `aga8_composition_dict` of the source; the
`pyaga8.Composition` object built from it field-by-field belongs to the
external engine and is determined by this dict). -/
def to_aga8_composition (composition : List (String × FVal)) : MapperOutcome :=
  mapperGo (sumFVals (composition.map (·.2))) aga8_initial_dict composition

/-- Routing of one canonical token as described by claim C4, as amended.
This definition follows the amended claim words, for comparison with the
code-derived `resolveTokenWith`: a token that is the letter C followed by a
decimal digit has its remainder after the C parsed by the Python integer
rules (`pyInt?`: decimal digits with single underscore separators between
digits and optional trailing whitespace); on success with value N it is
routed to the normal alkane nCN for N in 6..9, to nC10 for N at least 10,
and to the literally named key for N below 6, and on parse failure it fails
with a numeric-parse error; the bare token C and the empty token fail with
an index error; any other token must exactly match a name of the *fixed*
component list and is otherwise an invalid component. -/
def claimedListTarget (token : String) : List Char → KeyTarget
  | [] => .indexError
  | c :: rest =>
    if c = 'C' then
      match rest with
      | [] => .indexError
      | c1 :: _ =>
        if c1.isDigit then
          match pyInt? rest with
          | none => .valueError
          | some n =>
            if n = 6 ∨ n = 7 ∨ n = 8 ∨ n = 9 then .assign ("nC" ++ toString n)
            else if 10 ≤ n then .assign "nC10"
            else .assign token
        else if token ∈ aga8_components then .assign token
        else .illegal token
    else if token ∈ aga8_components then .assign token
    else .illegal token

/-- The claimed routing of one canonical token: dispatch on its character
list. -/
def claimedTokenTarget (token : String) : KeyTarget :=
  claimedListTarget token token.toList

/-- The claimed routing of a full input key: strip a hyphen suffix, then route
the token. -/
def claimedKeyTarget (component : String) : KeyTarget :=
  claimedTokenTarget (canonicalToken component)

theorem dictHas_map_zero (l : List String) (t : String) :
    dictHas (l.map fun c => (c, FVal.val 0)) t = decide (t ∈ l) := by
  induction l with
  | nil => simp [dictHas]
  | cons c cs ih =>
    simp only [dictHas, List.map_cons, List.any_cons] at ih ⊢
    rw [ih]
    by_cases h : c = t
    · simp [h]
    · simp [h, Ne.symm h]

/-- A token whose first character is C and whose second character is a decimal
digit.  Only such tokens can be appended to the mapper dict as new keys (the
literal-assignment branch for carbon numbers below 6), and no such token is
ever routed through the fallback membership test — which is why the fallback
test against the evolving dict keys coincides with the test against the fixed
component list. -/
def isCDigitToken (t : String) : Bool :=
  match t.toList with
  | c0 :: c1 :: _ => c0 = 'C' && c1.isDigit
  | _ => false

theorem resolveTokenWith_eq_claimed (isKey : String → Bool)
    (hkey : ∀ s, isCDigitToken s = false → isKey s = decide (s ∈ aga8_components))
    (t : String) :
    resolveTokenWith isKey t = claimedTokenTarget t := by
  have hcd : ∀ (c0 c1 : Char) (rs : List Char), t.toList = c0 :: c1 :: rs →
      (¬ c0 = 'C' ∨ c1.isDigit = false) → isCDigitToken t = false := by
    intro c0 c1 rs hl hor
    unfold isCDigitToken
    rw [hl]
    rcases hor with h | h <;> simp [h]
  have hshort : t.toList.length ≤ 1 → isCDigitToken t = false := by
    intro hlen
    unfold isCDigitToken
    cases hl : t.toList with
    | nil => rfl
    | cons a l =>
      cases l with
      | nil => rfl
      | cons b l2 => rw [hl] at hlen; simp at hlen
  unfold resolveTokenWith claimedTokenTarget
  cases ht : t.toList with
  | nil => rfl
  | cons c0 rest =>
    by_cases hc : c0 = 'C'
    · subst hc
      cases rest with
      | nil => simp [resolveListWith, claimedListTarget]
      | cons c1 rs =>
        by_cases hd : c1.isDigit
        · cases hpi : pyInt? (c1 :: rs) with
          | none => simp [resolveListWith, claimedListTarget, hd, hpi]
          | some n => simp [resolveListWith, claimedListTarget, hd, hpi]
        · have hcdf : isCDigitToken t = false :=
            hcd 'C' c1 rs ht (Or.inr (by simpa using hd))
          simp [resolveListWith, claimedListTarget, hd, hkey t hcdf]
    · have hcdf : isCDigitToken t = false := by
        cases rest with
        | nil => exact hshort (by rw [ht]; simp)
        | cons c1 rs => exact hcd c0 c1 rs ht (Or.inl hc)
      simp [resolveListWith, claimedListTarget, hc, hkey t hcdf]

theorem resolveToken_initial_eq_claimed (t : String) :
    resolveTokenWith (fun s => dictHas aga8_initial_dict s) t = claimedTokenTarget t := by
  refine resolveTokenWith_eq_claimed _ (fun s _ => ?_) t
  rw [aga8_initial_dict, dictHas_map_zero]

/-- Keys of an association-list dict, in order. -/
def dictKeys {α : Type} (d : List (String × α)) : List String := d.map (·.1)

theorem dictHas_dictSet {α : Type} (d : List (String × α)) (k k' : String) (v : α) :
    dictHas (dictSet d k v) k' = (dictHas d k' || (k == k')) := by
  induction d with
  | nil => simp [dictSet, dictHas]
  | cons p rest ih =>
    by_cases h : p.1 = k
    · subst h
      simp only [dictSet, beq_self_eq_true, if_true, dictHas, List.any_cons]
      by_cases h2 : p.1 = k' <;> simp [h2]
    · simp only [dictSet, dictHas, List.any_cons] at *
      rw [if_neg (by simpa using h), List.any_cons, ih]
      by_cases h2 : p.1 = k' <;> simp [h2, Bool.or_assoc]

theorem dictFind?_cons {α : Type} (p : String × α) (d : List (String × α)) (k : String) :
    dictFind? (p :: d) k = if p.1 == k then some p.2 else dictFind? d k := by
  simp only [dictFind?, List.find?]
  by_cases h : p.1 == k <;> simp [h]

theorem mem_dictSet {α : Type} (d : List (String × α)) (k : String) (v : α)
    (p : String × α) (hp : p ∈ dictSet d k v) : p = (k, v) ∨ p ∈ d := by
  induction d with
  | nil => simp [dictSet] at hp; simp [hp]
  | cons q rest ih =>
    by_cases h : q.1 = k
    · rw [dictSet, if_pos (by simpa using h)] at hp
      rcases List.mem_cons.mp hp with h2 | h2
      · exact Or.inl h2
      · exact Or.inr (List.mem_cons_of_mem _ h2)
    · rw [dictSet, if_neg (by simpa using h)] at hp
      rcases List.mem_cons.mp hp with h2 | h2
      · exact Or.inr (by simp [h2])
      · rcases ih h2 with h3 | h3
        · exact Or.inl h3
        · exact Or.inr (List.mem_cons_of_mem _ h3)

/-- The rational standing behind a finite `FVal` (`0` for `nan`; only applied
to finite values). -/
def ratOf : FVal → ℚ
  | FVal.nan => 0
  | FVal.val q => q

/-- Sum of the rational values of a dict. -/
def dictRatSum (d : List (String × FVal)) : ℚ :=
  (d.map (fun p => ratOf p.2)).sum

theorem dictRatSum_dictSet (d : List (String × FVal)) (k : String) (x : ℚ)
    (h : dictFind? d k = some (FVal.val 0) ∨ dictHas d k = false) :
    dictRatSum (dictSet d k (FVal.val x)) = dictRatSum d + x := by
  induction d with
  | nil => simp [dictSet, dictRatSum, ratOf]
  | cons p rest ih =>
    by_cases hk : p.1 = k
    · have hfind : dictFind? (p :: rest) k = some p.2 := by
        rw [dictFind?_cons, if_pos (by simpa using hk)]
      have hhas : dictHas (p :: rest) k = true := by
        simp [dictHas, List.any_cons, hk]
      rcases h with h | h
      · rw [hfind] at h
        have hp2 : p.2 = FVal.val 0 := Option.some_injective _ h
        rw [dictSet, if_pos (by simpa using hk)]
        simp [dictRatSum, ratOf, hp2]
        ring
      · rw [hhas] at h; cases h
    · have hstep : dictSet (p :: rest) k (FVal.val x) = p :: dictSet rest k (FVal.val x) := by
        rw [dictSet, if_neg (by simpa using hk)]
      have hrest : dictFind? rest k = some (FVal.val 0) ∨ dictHas rest k = false := by
        rcases h with h | h
        · rw [dictFind?_cons, if_neg (by simpa using hk)] at h; exact Or.inl h
        · refine Or.inr ?_
          simp only [dictHas, List.any_cons, Bool.or_eq_false_iff] at h ⊢
          exact h.2
      rw [hstep]
      simp only [dictRatSum, List.map_cons, List.sum_cons] at *
      rw [ih hrest]
      ring

/-- Invariant on the mapper dict that keeps the dynamic fallback membership
test (`comp_name in list(aga8_composition_dict.keys())`) equivalent to the
test against the fixed component list: every fixed component name is a key,
and every key is a fixed component name or a C-plus-digit token. -/
def goodKeys (d : List (String × FVal)) : Prop :=
  (∀ c ∈ aga8_components, dictHas d c = true) ∧
  (∀ k, dictHas d k = true → k ∈ aga8_components ∨ isCDigitToken k = true)

theorem goodKeys_initial : goodKeys aga8_initial_dict := by
  constructor
  · intro c hc
    rw [aga8_initial_dict, dictHas_map_zero]
    simpa using hc
  · intro k hk
    rw [aga8_initial_dict, dictHas_map_zero] at hk
    exact Or.inl (by simpa using hk)

theorem claimedTokenTarget_assign_mem (t ek : String)
    (h : claimedTokenTarget t = KeyTarget.assign ek) :
    ek ∈ aga8_components ∨ isCDigitToken ek = true := by
  unfold claimedTokenTarget at h
  cases ht : t.toList with
  | nil => rw [ht] at h; simp [claimedListTarget] at h
  | cons c rest =>
    rw [ht] at h
    by_cases hc : c = 'C'
    · subst hc
      cases rest with
      | nil => simp [claimedListTarget] at h
      | cons c1 rs =>
        by_cases hd : c1.isDigit
        · cases hpi : pyInt? (c1 :: rs) with
          | none => simp [claimedListTarget, hd, hpi] at h
          | some n =>
            simp [claimedListTarget, hd, hpi] at h
            by_cases h69 : n = 6 ∨ n = 7 ∨ n = 8 ∨ n = 9
            · rw [if_pos h69] at h
              have hek : ek = "nC" ++ toString n := (KeyTarget.assign.inj h).symm
              rcases h69 with h9 | h9 | h9 | h9 <;> rw [h9] at hek <;> subst hek <;>
                exact Or.inl (by decide)
            · rw [if_neg h69] at h
              by_cases h10 : 10 ≤ n
              · rw [if_pos h10] at h
                have hek : ek = "nC10" := (KeyTarget.assign.inj h).symm
                subst hek; exact Or.inl (by decide)
              · rw [if_neg h10] at h
                have hek : ek = t := (KeyTarget.assign.inj h).symm
                subst hek
                refine Or.inr ?_
                unfold isCDigitToken
                rw [ht]
                simp [hd]
        · by_cases h4 : t ∈ aga8_components
          · simp [claimedListTarget, hd, h4] at h
            exact Or.inl (h ▸ h4)
          · simp [claimedListTarget, hd, h4] at h
    · by_cases h4 : t ∈ aga8_components
      · simp [claimedListTarget, hc, h4] at h
        exact Or.inl (h ▸ h4)
      · simp [claimedListTarget, hc, h4] at h

theorem goodKeys_dictSet (d : List (String × FVal)) (hg : goodKeys d) (ek : String)
    (hek : ek ∈ aga8_components ∨ isCDigitToken ek = true) (v : FVal) :
    goodKeys (dictSet d ek v) := by
  constructor
  · intro c hc
    rw [dictHas_dictSet]
    simp [hg.1 c hc]
  · intro k hk
    rw [dictHas_dictSet] at hk
    rcases (by simpa using hk : dictHas d k = true ∨ ek = k) with h | h
    · exact hg.2 k h
    · subst h
      exact hek

theorem resolveKeyWith_goodKeys (d : List (String × FVal)) (hg : goodKeys d) (k : String) :
    resolveKeyWith (fun t => dictHas d t) k = claimedKeyTarget k := by
  unfold resolveKeyWith claimedKeyTarget
  apply resolveTokenWith_eq_claimed
  intro s hs
  by_cases hmem : s ∈ aga8_components
  · simp [hg.1 s hmem, hmem]
  · by_cases hb : dictHas d s = true
    · rcases hg.2 s hb with h2 | h2
      · exact absurd h2 hmem
      · rw [hs] at h2; cases h2
    · have hb2 : dictHas d s = false := by
        rcases Bool.eq_false_or_eq_true (dictHas d s) with h | h
        · exact absurd h hb
        · exact h
      simp [hb2, hmem]

theorem claimedKeyTarget_assign_mem (k ek : String)
    (h : claimedKeyTarget k = KeyTarget.assign ek) :
    ek ∈ aga8_components ∨ isCDigitToken ek = true :=
  claimedTokenTarget_assign_mem _ _ h

/-- C4 (amended): for a single-component input with nonzero value and an
ASCII key (the domain on which the embedding of `str.isnumeric` and `int`
is exact — Python accepts further Unicode digits and whitespace outside
it), the composition mapper routes the key exactly as `claimedKeyTarget`
describes: after stripping any hyphen suffix, a token of the letter C
followed by a decimal digit has its remainder after the C parsed by the
Python integer rules (decimal digits with single underscore separators
between digits and optional trailing whitespace, so the key C1_0 parses to
carbon number 10); a parsed value N in 6..9 is assigned to nCN, N at least
10 to nC10, N below 6 to the literal token; a parse failure raises the
numeric-parse (`ValueError`) error and the bare token C (or an empty token)
an index error, rather than the invalid-component error the original claim
stated; any other token must exactly match a fixed component name or the
call fails with the invalid-component error. -/
theorem aga8_C4_key_routing (k : String) (v : ℚ) (hv : v ≠ 0)
    (hascii : ∀ c ∈ k.toList, c.toNat < 128) :
    to_aga8_composition [(k, FVal.val v)] =
      (match claimedKeyTarget k with
       | KeyTarget.assign ek => MapperOutcome.ok (dictSet aga8_initial_dict ek (FVal.val 1))
       | KeyTarget.illegal n => MapperOutcome.illegalComponent n
       | KeyTarget.indexError => MapperOutcome.indexError
       | KeyTarget.valueError => MapperOutcome.valueError) := by
  have hsum : sumFVals ([(k, FVal.val v)].map (·.2)) = FVal.val v := by
    simp [sumFVals, FVal.add]
  rw [to_aga8_composition, hsum]
  have hres := resolveKeyWith_goodKeys aga8_initial_dict goodKeys_initial k
  cases hct : claimedKeyTarget k with
  | assign ek =>
    rw [hct] at hres
    simp [mapperGo, hres, hv, div_self hv]
  | illegal n =>
    rw [hct] at hres
    simp [mapperGo, hres, hv]
  | indexError =>
    rw [hct] at hres
    simp [mapperGo, hres, hv]
  | valueError =>
    rw [hct] at hres
    simp [mapperGo, hres, hv]

/-- Witness for C4: the ASCII key C1_0 — whose carbon number parses under the
Python integer rules as `int` of the string 1_0, that is 10 — is routed to
the engine component nC10 with normalized fraction 1, exactly like the keys
C10 and C11. -/
theorem aga8_C4_key_routing_witness :
    (3 : ℚ) ≠ 0 ∧
    (∀ c ∈ "C1_0".toList, c.toNat < 128) ∧
    claimedKeyTarget "C1_0" = KeyTarget.assign "nC10" ∧
    to_aga8_composition [("C1_0", FVal.val 3)] =
      (match claimedKeyTarget "C1_0" with
       | KeyTarget.assign ek => MapperOutcome.ok (dictSet aga8_initial_dict ek (FVal.val 1))
       | KeyTarget.illegal n => MapperOutcome.illegalComponent n
       | KeyTarget.indexError => MapperOutcome.indexError
       | KeyTarget.valueError => MapperOutcome.valueError) :=
  ⟨by norm_num, by decide, by decide,
    aga8_C4_key_routing "C1_0" 3 (by norm_num) (by decide)⟩

unseal Rat.add Rat.mul Rat.inv Rat.sub in
/-- Counterexample for C4 as stated: the token C1a matches no fixed component
name, yet the mapper does not fail with the invalid-component error — it
fails with the `ValueError` raised by `int(comp_name[1:])` on the non-numeric
string 1a. -/
theorem aga8_C4_counterexample :
    to_aga8_composition [("C1a", FVal.val 1)] = MapperOutcome.valueError ∧
    "C1a" ∉ aga8_components ∧
    ∀ n, to_aga8_composition [("C1a", FVal.val 1)] ≠ MapperOutcome.illegalComponent n := by
  refine ⟨by decide, by decide, ?_⟩
  intro n h
  rw [(by decide : to_aga8_composition [("C1a", FVal.val 1)] = MapperOutcome.valueError)] at h
  cases h

/-- All values of a dict are finite and non-negative. -/
def dictValsOk (d : List (String × FVal)) : Prop :=
  ∀ p ∈ d, ∃ q : ℚ, p.2 = FVal.val q ∧ 0 ≤ q

theorem dictValsOk_dictSet (d : List (String × FVal)) (hd : dictValsOk d)
    (k : String) (x : ℚ) (hx : 0 ≤ x) : dictValsOk (dictSet d k (FVal.val x)) := by
  intro p hp
  rcases mem_dictSet _ _ _ _ hp with h | h
  · exact ⟨x, by rw [h], hx⟩
  · exact hd p h

theorem dictFind?_dictSet_ne {α : Type} (d : List (String × α)) (k k' : String)
    (v : α) (h : k ≠ k') : dictFind? (dictSet d k v) k' = dictFind? d k' := by
  induction d with
  | nil =>
    have h1 : (k == k') = false := by simpa using h
    simp [dictSet, dictFind?, List.find?, h1]
  | cons p rest ih =>
    by_cases hp : p.1 = k
    · rw [dictSet, if_pos (by simpa using hp)]
      rw [dictFind?_cons, dictFind?_cons]
      have h1 : (k == k') = false := by simpa using h
      have h2 : (p.1 == k') = false := by
        rw [hp]; simpa using h
      simp [h1, h2]
    · rw [dictSet, if_neg (by simpa using hp)]
      rw [dictFind?_cons, dictFind?_cons, ih]

theorem sumFVals_all_val : ∀ (l : List FVal) (a : ℚ),
    (∀ x ∈ l, ∃ q : ℚ, x = FVal.val q) →
    l.foldl FVal.add (FVal.val a) = FVal.val (a + (l.map ratOf).sum)
  | [], a, _ => by simp
  | x :: xs, a, h => by
    rcases h x (by simp) with ⟨q, hq⟩
    subst hq
    rw [List.foldl_cons]
    have h1 : FVal.add (FVal.val a) (FVal.val q) = FVal.val (a + q) := rfl
    rw [h1, sumFVals_all_val xs (a + q) (fun y hy => h y (by simp [hy]))]
    simp only [List.map_cons, List.sum_cons, ratOf]
    ring_nf

theorem sumFVals_eq_ratSum (l : List FVal) (h : ∀ x ∈ l, ∃ q : ℚ, x = FVal.val q) :
    sumFVals l = FVal.val ((l.map ratOf).sum) := by
  rw [sumFVals, sumFVals_all_val l 0 h, zero_add]

theorem sumFVals_map_val (l : List ℚ) :
    sumFVals (l.map FVal.val) = FVal.val l.sum := by
  have h : ∀ x ∈ l.map FVal.val, ∃ q : ℚ, x = FVal.val q := by
    intro x hx
    rcases List.mem_map.mp hx with ⟨q, hq1, hq2⟩
    exact ⟨q, hq2.symm⟩
  rw [sumFVals_eq_ratSum _ h, List.map_map]
  congr 1
  have h2 : (ratOf ∘ FVal.val) = id := by
    funext q
    rfl
  rw [h2, List.map_id]

/-- A composition of rational values injected into Python floats. -/
def liftComp (c : List (String × ℚ)) : List (String × FVal) :=
  c.map (fun p => (p.1, FVal.val p.2))

theorem mapperGo_ok_run (S : ℚ) (hSpos : 0 < S) :
    ∀ (entries : List (String × ℚ)) (d : List (String × FVal)),
      goodKeys d → dictValsOk d →
      (∀ p ∈ entries, 0 ≤ p.2) →
      (∀ p ∈ entries, ∃ ek, claimedKeyTarget p.1 = KeyTarget.assign ek ∧
          (dictFind? d ek = some (FVal.val 0) ∨ dictHas d ek = false)) →
      List.Pairwise (fun p q => claimedKeyTarget p.1 ≠ claimedKeyTarget q.1) entries →
      ∃ d', mapperGo (FVal.val S) d (liftComp entries) = MapperOutcome.ok d' ∧
        dictValsOk d' ∧
        dictRatSum d' = dictRatSum d + (entries.map (·.2)).sum / S := by
  intro entries
  induction entries with
  | nil =>
    intro d _ hv _ _ _
    exact ⟨d, by simp [liftComp, mapperGo], hv, by simp⟩
  | cons e tl ih =>
    intro d hg hv hnn hfresh hpw
    obtain ⟨ek, hek, hfr⟩ := hfresh e (by simp)
    have hres := resolveKeyWith_goodKeys d hg e.1
    rw [hek] at hres
    have hS : S ≠ 0 := ne_of_gt hSpos
    have hSne : ¬ (FVal.val S = FVal.val 0) := by simpa using hS
    have hstep : mapperGo (FVal.val S) d (liftComp (e :: tl)) =
        mapperGo (FVal.val S) (dictSet d ek (FVal.val (e.2 / S))) (liftComp tl) := by
      simp [liftComp, mapperGo, hSne, hres]
    have hgood2 : goodKeys (dictSet d ek (FVal.val (e.2 / S))) :=
      goodKeys_dictSet d hg ek (claimedKeyTarget_assign_mem e.1 ek hek) _
    have hvals2 : dictValsOk (dictSet d ek (FVal.val (e.2 / S))) :=
      dictValsOk_dictSet d hv ek _ (div_nonneg (hnn e (by simp)) (le_of_lt hSpos))
    have hfresh2 : ∀ p ∈ tl, ∃ ek2, claimedKeyTarget p.1 = KeyTarget.assign ek2 ∧
        (dictFind? (dictSet d ek (FVal.val (e.2 / S))) ek2 = some (FVal.val 0) ∨
         dictHas (dictSet d ek (FVal.val (e.2 / S))) ek2 = false) := by
      intro p hp
      obtain ⟨ek2, hek2, hfr2⟩ := hfresh p (by simp [hp])
      refine ⟨ek2, hek2, ?_⟩
      have hne : ek ≠ ek2 := by
        have hpq := (List.pairwise_cons.mp hpw).1 p hp
        rw [hek, hek2] at hpq
        intro hcontra
        exact hpq (by rw [hcontra])
      rcases hfr2 with h | h
      · exact Or.inl (by rw [dictFind?_dictSet_ne d ek ek2 _ hne]; exact h)
      · refine Or.inr ?_
        rw [dictHas_dictSet]
        simp [h, hne]
    obtain ⟨d', hrun, hvals', hsum'⟩ := ih (dictSet d ek (FVal.val (e.2 / S))) hgood2 hvals2
        (fun p hp => hnn p (by simp [hp])) hfresh2 (List.pairwise_cons.mp hpw).2
    refine ⟨d', by rw [hstep]; exact hrun, hvals', ?_⟩
    rw [hsum', dictRatSum_dictSet d ek (e.2 / S) hfr]
    simp only [List.map_cons, List.sum_cons, add_div]
    ring

theorem dictFind?_map_zero (l : List String) (t : String) (h : t ∈ l) :
    dictFind? (l.map fun c => (c, FVal.val 0)) t = some (FVal.val 0) := by
  induction l with
  | nil => cases h
  | cons c cs ih =>
    rw [List.map_cons, dictFind?_cons]
    by_cases hc : c = t
    · simp [hc]
    · have h2 : t ∈ cs := by
        rcases List.mem_cons.mp h with h3 | h3
        · exact absurd h3.symm hc
        · exact h3
      have h3 : (c == t) = false := by simpa using hc
      simp [h3, ih h2]

theorem dictValsOk_initial : dictValsOk aga8_initial_dict := by
  intro p hp
  rcases List.mem_map.mp hp with ⟨c, hc1, hc⟩
  exact ⟨0, by rw [← hc], le_refl 0⟩

unseal Rat.add in
theorem dictRatSum_initial : dictRatSum aga8_initial_dict = 0 := by decide

/-- C5 (amended): for an input composition with non-negative values, nonzero
sum, every key routed to an engine assignment, and no two keys lumping to the
same engine dict entry, the mapper succeeds and the returned
name-to-fraction dict has every value finite and non-negative with the
values summing exactly to 1. -/
theorem aga8_C5_normalization (comp : List (String × ℚ))
    (hvals : ∀ p ∈ comp, 0 ≤ p.2)
    (hsum : (comp.map (·.2)).sum ≠ 0)
    (htargets : ∀ p ∈ comp, ∃ ek, claimedKeyTarget p.1 = KeyTarget.assign ek)
    (hinj : List.Pairwise (fun p q => claimedKeyTarget p.1 ≠ claimedKeyTarget q.1) comp) :
    ∃ d, to_aga8_composition (liftComp comp) = MapperOutcome.ok d ∧
      (∀ p ∈ d, ∃ q : ℚ, p.2 = FVal.val q ∧ 0 ≤ q) ∧
      sumFVals (d.map (·.2)) = FVal.val 1 := by
  have hSnn : 0 ≤ (comp.map (·.2)).sum := by
    apply List.sum_nonneg
    intro x hx
    rcases List.mem_map.mp hx with ⟨p, hp, hpx⟩
    rw [← hpx]
    exact hvals p hp
  have hSpos : 0 < (comp.map (·.2)).sum := lt_of_le_of_ne hSnn (Ne.symm hsum)
  have hfresh : ∀ p ∈ comp, ∃ ek, claimedKeyTarget p.1 = KeyTarget.assign ek ∧
      (dictFind? aga8_initial_dict ek = some (FVal.val 0) ∨
       dictHas aga8_initial_dict ek = false) := by
    intro p hp
    obtain ⟨ek, hek⟩ := htargets p hp
    refine ⟨ek, hek, ?_⟩
    by_cases hmem : ek ∈ aga8_components
    · exact Or.inl (by rw [aga8_initial_dict]; exact dictFind?_map_zero _ _ hmem)
    · refine Or.inr ?_
      rw [aga8_initial_dict, dictHas_map_zero]
      simpa using hmem
  obtain ⟨d, hrun, hvals', hsum'⟩ :=
    mapperGo_ok_run _ hSpos comp aga8_initial_dict goodKeys_initial dictValsOk_initial
      hvals hfresh hinj
  refine ⟨d, ?_, hvals', ?_⟩
  · rw [to_aga8_composition]
    have hmap : (liftComp comp).map (·.2) = (comp.map (·.2)).map FVal.val := by
      rw [liftComp, List.map_map, List.map_map]
      rfl
    rw [hmap, sumFVals_map_val]
    exact hrun
  · have h1 : sumFVals (d.map (·.2)) = FVal.val ((d.map (·.2)).map ratOf).sum := by
      apply sumFVals_eq_ratSum
      intro x hx
      rcases List.mem_map.mp hx with ⟨p, hp, hpx⟩
      obtain ⟨q, hq, hq2⟩ := hvals' p hp
      exact ⟨q, by rw [← hpx, hq]⟩
    rw [h1]
    have h2 : ((d.map (·.2)).map ratOf).sum = dictRatSum d := by
      rw [List.map_map]
      rfl
    rw [h2, hsum', dictRatSum_initial, zero_add, div_self hsum]

/-- Witness for C5 (amended) at the two-component composition C1 = 75,
CO2 = 25. -/
theorem aga8_C5_normalization_witness :
    (∀ p ∈ [("C1", (75 : ℚ)), ("CO2", 25)], 0 ≤ p.2) ∧
    ([("C1", (75 : ℚ)), ("CO2", 25)].map (·.2)).sum ≠ 0 ∧
    (∀ p ∈ [("C1", (75 : ℚ)), ("CO2", 25)], ∃ ek,
      claimedKeyTarget p.1 = KeyTarget.assign ek) ∧
    List.Pairwise (fun p q => claimedKeyTarget p.1 ≠ claimedKeyTarget q.1)
      [("C1", (75 : ℚ)), ("CO2", 25)] ∧
    (∃ d, to_aga8_composition (liftComp [("C1", (75 : ℚ)), ("CO2", 25)]) =
        MapperOutcome.ok d ∧
      (∀ p ∈ d, ∃ q : ℚ, p.2 = FVal.val q ∧ 0 ≤ q) ∧
      sumFVals (d.map (·.2)) = FVal.val 1) := by
  have h1 : ∀ p ∈ [("C1", (75 : ℚ)), ("CO2", 25)], 0 ≤ p.2 := by
    intro p hp
    fin_cases hp <;> norm_num
  have h2 : ([("C1", (75 : ℚ)), ("CO2", 25)].map (·.2)).sum ≠ 0 := by
    norm_num
  have h3 : ∀ p ∈ [("C1", (75 : ℚ)), ("CO2", 25)], ∃ ek,
      claimedKeyTarget p.1 = KeyTarget.assign ek := by
    intro p hp
    fin_cases hp
    · exact ⟨"C1", by decide⟩
    · exact ⟨"CO2", by decide⟩
  have h4 : List.Pairwise (fun p q => claimedKeyTarget p.1 ≠ claimedKeyTarget q.1)
      [("C1", (75 : ℚ)), ("CO2", 25)] := by
    decide
  exact ⟨h1, h2, h3, h4, aga8_C5_normalization _ h1 h2 h3 h4⟩

/-- Sum of the values of the dict produced by the mapper, when it succeeds. -/
def mapperSum : MapperOutcome → Option FVal
  | MapperOutcome.ok d => some (sumFVals (d.map (·.2)))
  | _ => none

unseal Rat.add Rat.mul Rat.inv Rat.sub in
/-- Counterexample for C5 as stated: the composition with keys C7 and nC7
(both lumping to engine component nC7, values 50 and 50) is accepted by the
mapper, but the later assignment overwrites the earlier one, so the returned
fractions sum to one half, not 1. -/
theorem aga8_C5_counterexample :
    mapperSum (to_aga8_composition [("C7", FVal.val 50), ("nC7", FVal.val 50)]) =
      some (FVal.val (1 / 2)) ∧ (1 / 2 : ℚ) ≠ 1 := by
  constructor
  · decide
  · norm_num

/-- Name of component index `j` in the fixed AGA8 order. -/
def componentName (j : Fin 21) : String :=
  aga8_components.get (Fin.cast (by decide) j)

/-- The row of `comp_matrix` for one input composition dict (`aga8.py`,
lines 555–570): entry `j` is the dict value for component `j`, zero when the
dict does not list it. -/
def compVec (c : List (String × ℚ)) : Fin 21 → ℚ :=
  fun j => (dictFind? c (componentName j)).getD 0

/-- Sum of one composition row (`comp_sums`, `aga8.py` line 573). -/
def rowSum (r : Fin 21 → ℚ) : ℚ := ∑ j, r j

/-- Mole-fraction-normalized row (`comp_matrix_normalized`, line 583). -/
def normRow (r : Fin 21 → ℚ) : Fin 21 → ℚ := fun j => r j / rowSum r

/-- Fraction-weighted average molecular weight of one stream (`avg_mw_array`,
line 586). -/
def avgMW (eq : EOSEquation) (r : Fin 21 → ℚ) : ℚ :=
  ∑ j, normRow r j * molecular_weights eq j

/-- Moles of component `j` contributed by one stream of row `r` and mass `w`
kg (`moles_matrix`, lines 590–593): the stream total moles are
`w * 1000 / avgMW` and are distributed per the normalized fractions. -/
def streamMoles (eq : EOSEquation) (r : Fin 21 → ℚ) (w : ℚ) : Fin 21 → ℚ :=
  fun j => normRow r j * (w * 1000 / avgMW eq r)

/-- Component moles summed across all streams (`component_moles`, line 596). -/
def mix_component_moles (eq : EOSEquation) (compositions : List (List (String × ℚ)))
    (mix_weights : List ℚ) : Fin 21 → ℚ :=
  fun j => (((compositions.map compVec).zip mix_weights).map
    (fun s => streamMoles eq s.1 s.2 j)).sum

/-- Result composition dict built from the component moles (`aga8.py`,
lines 624–635): mole percents of the fixed components, keeping only the
strictly positive ones (`nonzero_mask = mole_percents > 0`), in index order. -/
def mixResultList (f : Fin 21 → ℚ) : List (String × ℚ) :=
  (List.finRange 21).filterMap
    (fun j => if f j > 0 then some (componentName j, f j) else none)

/-- Outcome of `AGA8.mix`: a raised `ValueError`, the all-`NaN` error dict
(`results_error`, lines 528–531: every listed component name mapped to `NaN`
and total mass `NaN`), or a successful result (composition in mole percent
and total mass). -/
inductive MixOutcome where
  | raised (msg : String)
  | nanResult (components : List String)
  | result (composition : List (String × ℚ)) (total_mass : ℚ)
deriving DecidableEq, Repr

/-- The union of component names over the input compositions (`aga8.py`,
lines 523–525; a Python `set`, modelled as a deduplicated list — only its
membership matters). -/
def uniqueComponents (comps : List (List (String × ℚ))) : List String :=
  ((comps.map (fun c => c.map (·.1))).flatten).dedup

/-- Tail of `AGA8.mix` from the total-moles computation on (`aga8.py`,
lines 613–642). -/
def mixFinish (check_input : Bool) (uc : List String) (moles : Fin 21 → ℚ)
    (total_mass : ℚ) : MixOutcome :=
  if (∑ j, moles j) = 0 then
    if check_input then MixOutcome.raised "Total moles is zero after mixing."
    else MixOutcome.nanResult uc
  else
    MixOutcome.result (mixResultList (fun j => moles j / (∑ i, moles i) * 100)) total_mass

/-- Embedding of `AGA8.mix` (`aga8.py`, lines 467–642).  The source validates
component names while filling the matrix composition-by-composition and
raises f-string messages naming the offending data; the embedding performs
the same checks in the same order with fixed messages.  With
`check_input=True` the negative-moles check precedes the negative-total-mass
check exactly as in the source. -/
def mix (eq : EOSEquation) (check_input : Bool)
    (compositions : List (List (String × ℚ))) (mix_weights : List ℚ) : MixOutcome :=
  let uc := uniqueComponents compositions
  if compositions.length ≠ mix_weights.length then
    if check_input then
      MixOutcome.raised "Length of compositions and mix_weights lists must be equal."
    else MixOutcome.nanResult uc
  else if compositions.length = 0 then
    if check_input then MixOutcome.raised "At least one composition must be provided."
    else MixOutcome.nanResult uc
  else if compositions.any (fun c => c.any (fun p => decide (p.1 ∉ aga8_components))) then
    if check_input then
      MixOutcome.raised "Invalid component. Must be one of the AGA8 components."
    else MixOutcome.nanResult uc
  else if compositions.any (fun c => decide (rowSum (compVec c) = 0)) then
    if check_input then MixOutcome.raised "Composition sum cannot be zero."
    else MixOutcome.nanResult uc
  else
    let moles := mix_component_moles eq compositions mix_weights
    let total_mass := mix_weights.sum
    if check_input then
      if ∃ j, moles j < 0 then
        MixOutcome.raised "Negative moles detected for components. This is non-physical."
      else if total_mass < 0 then
        MixOutcome.raised "Total mass is negative. This is non-physical."
      else mixFinish check_input uc moles total_mass
    else
      if (∃ j, moles j < 0) ∨ total_mass < 0 then MixOutcome.nanResult uc
      else mixFinish check_input uc moles total_mass

theorem dictFind?_mem {α : Type} (d : List (String × α)) (k : String) (v : α)
    (h : dictFind? d k = some v) : ∃ p ∈ d, p.2 = v := by
  induction d with
  | nil => simp [dictFind?] at h
  | cons p rest ih =>
    rw [dictFind?_cons] at h
    by_cases hp : p.1 == k
    · rw [if_pos hp] at h
      exact ⟨p, by simp, Option.some_injective _ h⟩
    · rw [if_neg hp] at h
      rcases ih h with ⟨q, hq, hqv⟩
      exact ⟨q, by simp [hq], hqv⟩

theorem compVec_nonneg (c : List (String × ℚ)) (hnn : ∀ p ∈ c, 0 ≤ p.2) (j : Fin 21) :
    0 ≤ compVec c j := by
  rw [compVec]
  cases hf : dictFind? c (componentName j) with
  | none => simp
  | some v =>
    rcases dictFind?_mem c _ v hf with ⟨p, hp, hpv⟩
    simp only [Option.getD_some]
    rw [← hpv]
    exact hnn p hp

theorem rowSum_pos (c : List (String × ℚ)) (hnn : ∀ p ∈ c, 0 ≤ p.2)
    (hsum : rowSum (compVec c) ≠ 0) : 0 < rowSum (compVec c) := by
  refine lt_of_le_of_ne ?_ (Ne.symm hsum)
  exact Finset.sum_nonneg (fun j _ => compVec_nonneg c hnn j)

theorem sum_normRow (r : Fin 21 → ℚ) (h : rowSum r ≠ 0) :
    (∑ j, normRow r j) = 1 := by
  simp only [normRow]
  rw [← Finset.sum_div]
  exact div_self h

theorem avgMW_pos (eq : EOSEquation) (c : List (String × ℚ))
    (hnn : ∀ p ∈ c, 0 ≤ p.2) (hsum : rowSum (compVec c) ≠ 0) :
    0 < avgMW eq (compVec c) := by
  have hS : 0 < rowSum (compVec c) := rowSum_pos c hnn hsum
  have hnr : ∀ j : Fin 21, 0 ≤ normRow (compVec c) j := by
    intro j
    exact div_nonneg (compVec_nonneg c hnn j) (le_of_lt hS)
  have h1 : (∑ j, normRow (compVec c) j) = 1 := sum_normRow _ hsum
  have hex : ∃ j : Fin 21, j ∈ Finset.univ ∧ 0 < normRow (compVec c) j := by
    by_contra hcon
    push_neg at hcon
    have hz : ∀ j : Fin 21, normRow (compVec c) j = 0 := by
      intro j
      exact le_antisymm (hcon j (Finset.mem_univ j)) (hnr j)
    rw [Finset.sum_congr rfl (fun j _ => hz j)] at h1
    simp at h1
  rcases hex with ⟨j, _, hj⟩
  rw [avgMW]
  have : 0 < normRow (compVec c) j * molecular_weights eq j :=
    mul_pos hj (molecular_weights_pos eq j)
  refine Finset.sum_pos' ?_ ⟨j, Finset.mem_univ j, this⟩
  intro i _
  exact mul_nonneg (hnr i) (le_of_lt (molecular_weights_pos eq i))

/-- C7: mixing with mismatched list lengths raises the descriptive
length-mismatch error when `check_input` is true, and with `check_input`
false returns the `results_error` dictionary: total mass `NaN` and every
component name appearing in any input composition — and only those — mapped
to `NaN` (the `nanResult` constructor denotes exactly that dict). -/
theorem aga8_C7_mix_length_mismatch (eq : EOSEquation)
    (comps : List (List (String × ℚ))) (ws : List ℚ)
    (h : comps.length ≠ ws.length) :
    mix eq true comps ws =
      MixOutcome.raised "Length of compositions and mix_weights lists must be equal." ∧
    mix eq false comps ws = MixOutcome.nanResult (uniqueComponents comps) ∧
    (∀ s, s ∈ uniqueComponents comps ↔ ∃ c ∈ comps, ∃ p ∈ c, p.1 = s) := by
  refine ⟨by rw [mix]; simp [h], by rw [mix]; simp [h], ?_⟩
  intro s
  rw [uniqueComponents, List.mem_dedup, List.mem_flatten]
  constructor
  · rintro ⟨l, hl, hs⟩
    rcases List.mem_map.mp hl with ⟨c, hc, hcl⟩
    rw [← hcl] at hs
    rcases List.mem_map.mp hs with ⟨p, hp, hps⟩
    exact ⟨c, hc, p, hp, hps⟩
  · rintro ⟨c, hc, p, hp, hps⟩
    refine ⟨c.map (·.1), List.mem_map_of_mem _ hc, ?_⟩
    rw [← hps]
    exact List.mem_map_of_mem _ hp

/-- Witness for C7 at one composition and an empty weight list. -/
theorem aga8_C7_mix_length_mismatch_witness :
    ([[("C1", (1 : ℚ))]].length ≠ ([] : List ℚ).length) ∧
    (mix EOSEquation.gerg2008 true [[("C1", (1 : ℚ))]] [] =
      MixOutcome.raised "Length of compositions and mix_weights lists must be equal." ∧
    mix EOSEquation.gerg2008 false [[("C1", (1 : ℚ))]] [] =
      MixOutcome.nanResult (uniqueComponents [[("C1", (1 : ℚ))]]) ∧
    (∀ s, s ∈ uniqueComponents [[("C1", (1 : ℚ))]] ↔
      ∃ c ∈ [[("C1", (1 : ℚ))]], ∃ p ∈ c, p.1 = s)) :=
  ⟨by decide, aga8_C7_mix_length_mismatch EOSEquation.gerg2008 _ _ (by decide)⟩

set_option maxRecDepth 10000 in
unseal Rat.add Rat.mul Rat.inv Rat.sub Rat.ofScientific in
/-- Counterexample for C8 as stated: mixing C1 = 100 with itself at masses
1 and -1 (with `check_input=False`) hits the zero-total-moles branch and
returns the `results_error` dict — total mass `NaN`, not 0 — so no
`MixOutcome.result` with total mass 0 is returned. -/
theorem aga8_C8_counterexample :
    mix EOSEquation.gerg2008 false [[("C1", 100)], [("C1", 100)]] [1, -1] =
      MixOutcome.nanResult ["C1"] ∧
    ∀ comp, mix EOSEquation.gerg2008 false [[("C1", 100)], [("C1", 100)]] [1, -1] ≠
      MixOutcome.result comp 0 := by
  have h0 : mix EOSEquation.gerg2008 false [[("C1", 100)], [("C1", 100)]] [1, -1] =
      MixOutcome.nanResult ["C1"] := by decide
  refine ⟨h0, ?_⟩
  intro comp h
  rw [h0] at h
  cases h

/-- C8 (amended): for every valid composition `X` (recognized names,
non-negative values, nonzero sum) and every mass `m > 0`, mixing `[X, X]`
with masses `[m, -m]` and `check_input=False` cancels all component moles
exactly, hits the zero-total-moles branch, and returns the `results_error`
dict: total mass `NaN` and every component of `X` mapped to `NaN` (not total
mass 0 as originally claimed). -/
theorem aga8_C8_self_cancel (eq : EOSEquation) (X : List (String × ℚ)) (m : ℚ)
    (hkeys : ∀ p ∈ X, p.1 ∈ aga8_components)
    (hnn : ∀ p ∈ X, 0 ≤ p.2)
    (hsum : rowSum (compVec X) ≠ 0)
    (hm : 0 < m) :
    mix eq false [X, X] [m, -m] = MixOutcome.nanResult (uniqueComponents [X, X]) := by
  have hmoles : mix_component_moles eq [X, X] [m, -m] = fun j => 0 := by
    funext j
    simp only [mix_component_moles, List.map_cons, List.map_nil, List.zip_cons_cons,
      List.zip_nil_right, List.sum_cons, List.sum_nil, streamMoles]
    ring
  have hvalid : ([X, X].any (fun c => c.any (fun p => decide (p.1 ∉ aga8_components)))) = false := by
    simp only [List.any_eq_false, Bool.not_eq_true]
    intro c hc p hp
    have hc2 : c = X := by
      rcases List.mem_cons.mp hc with h | h
      · exact h
      · simpa using h
    subst hc2
    simpa using hkeys p hp
  have hzs : ([X, X].any (fun c => decide (rowSum (compVec c) = 0))) = false := by
    simp only [List.any_eq_false, Bool.not_eq_true]
    intro c hc
    have hc2 : c = X := by
      rcases List.mem_cons.mp hc with h | h
      · exact h
      · simpa using h
    subst hc2
    simpa using hsum
  rw [mix]
  norm_num [hvalid, hzs, hmoles, mixFinish]

set_option maxRecDepth 10000 in
unseal Rat.add Rat.mul Rat.inv Rat.sub Rat.ofScientific in
/-- Witness for C8 (amended) at X = (C1 = 100), m = 1. -/
theorem aga8_C8_self_cancel_witness :
    (∀ p ∈ [("C1", (100 : ℚ))], p.1 ∈ aga8_components) ∧
    (∀ p ∈ [("C1", (100 : ℚ))], 0 ≤ p.2) ∧
    rowSum (compVec [("C1", (100 : ℚ))]) ≠ 0 ∧
    (0 : ℚ) < 1 ∧
    mix EOSEquation.gerg2008 false [[("C1", (100 : ℚ))], [("C1", (100 : ℚ))]] [1, -1] =
      MixOutcome.nanResult (uniqueComponents [[("C1", (100 : ℚ))], [("C1", (100 : ℚ))]]) := by
  have h1 : ∀ p ∈ [("C1", (100 : ℚ))], p.1 ∈ aga8_components := by decide
  have h2 : ∀ p ∈ [("C1", (100 : ℚ))], 0 ≤ p.2 := by
    intro p hp
    fin_cases hp
    norm_num
  have h3 : rowSum (compVec [("C1", (100 : ℚ))]) ≠ 0 := by decide
  have h4 : (0 : ℚ) < 1 := by norm_num
  exact ⟨h1, h2, h3, h4, aga8_C8_self_cancel EOSEquation.gerg2008 _ 1 h1 h2 h3 h4⟩

theorem mix_success (eq : EOSEquation) (ci : Bool)
    (comps : List (List (String × ℚ))) (ws : List ℚ)
    (hlen : comps.length = ws.length) (hne : comps.length ≠ 0)
    (hkeys : ∀ c ∈ comps, ∀ p ∈ c, p.1 ∈ aga8_components)
    (hsums : ∀ c ∈ comps, rowSum (compVec c) ≠ 0)
    (hmoles : ∀ j, 0 ≤ mix_component_moles eq comps ws j)
    (hmass : 0 ≤ ws.sum)
    (hN : (∑ j, mix_component_moles eq comps ws j) ≠ 0) :
    mix eq ci comps ws = MixOutcome.result
      (mixResultList (fun j => mix_component_moles eq comps ws j /
        (∑ i, mix_component_moles eq comps ws i) * 100)) ws.sum := by
  have hvalid : (comps.any (fun c => c.any (fun p => decide (p.1 ∉ aga8_components)))) = false := by
    simp only [List.any_eq_false, Bool.not_eq_true]
    intro c hc p hp
    simpa using hkeys c hc p hp
  have hzs : (comps.any (fun c => decide (rowSum (compVec c) = 0))) = false := by
    simp only [List.any_eq_false, Bool.not_eq_true]
    intro c hc
    simpa using hsums c hc
  have hnoneg : ¬ ∃ j, mix_component_moles eq comps ws j < 0 := by
    rintro ⟨j, hj⟩
    exact absurd hj (not_lt.mpr (hmoles j))
  simp only [mix]
  rw [if_neg (fun hcon => hcon hlen), if_neg hne, hvalid]
  simp only [Bool.false_eq_true, if_false]
  rw [hzs]
  simp only [Bool.false_eq_true, if_false]
  cases ci with
  | true =>
    simp only [if_true]
    rw [if_neg hnoneg, if_neg (not_lt.mpr hmass), mixFinish, if_neg hN]
  | false =>
    simp only [Bool.false_eq_true, if_false]
    rw [if_neg (by rw [not_or]; exact ⟨hnoneg, not_lt.mpr hmass⟩), mixFinish, if_neg hN]

theorem componentName_mem (j : Fin 21) : componentName j ∈ aga8_components := by
  rw [componentName]
  exact List.get_mem _ _ _

theorem componentName_injective (i j : Fin 21)
    (h : componentName i = componentName j) : i = j := by
  revert h
  revert i j
  decide

theorem sum_streamMoles_mul_MW (eq : EOSEquation) (r : Fin 21 → ℚ) (w : ℚ)
    (havg : avgMW eq r ≠ 0) :
    ∑ j, streamMoles eq r w j * molecular_weights eq j = w * 1000 := by
  have h1 : ∑ j, streamMoles eq r w j * molecular_weights eq j =
      (w * 1000 / avgMW eq r) * ∑ j, normRow r j * molecular_weights eq j := by
    rw [Finset.mul_sum]
    apply Finset.sum_congr rfl
    intro j _
    rw [streamMoles]
    ring
  rw [h1]
  rw [show (∑ j, normRow r j * molecular_weights eq j) = avgMW eq r from rfl]
  field_simp

theorem sum_streamMoles (eq : EOSEquation) (r : Fin 21 → ℚ) (w : ℚ)
    (hr : rowSum r ≠ 0) :
    ∑ j, streamMoles eq r w j = w * 1000 / avgMW eq r := by
  simp only [streamMoles]
  rw [← Finset.sum_mul, sum_normRow r hr, one_mul]

theorem mixFilter_cons_pos (f : Fin 21 → ℚ) (i : Fin 21) (tl : List (Fin 21))
    (hf : f i > 0) :
    (i :: tl).filterMap (fun i => if f i > 0 then some (componentName i, f i) else none) =
      (componentName i, f i) ::
        tl.filterMap (fun i => if f i > 0 then some (componentName i, f i) else none) := by
  simp [List.filterMap_cons, hf]

theorem mixFilter_cons_neg (f : Fin 21 → ℚ) (i : Fin 21) (tl : List (Fin 21))
    (hf : ¬ f i > 0) :
    (i :: tl).filterMap (fun i => if f i > 0 then some (componentName i, f i) else none) =
      tl.filterMap (fun i => if f i > 0 then some (componentName i, f i) else none) := by
  simp [List.filterMap_cons, hf]

theorem dictFind?_mixResultList_notmem (f : Fin 21 → ℚ) (j : Fin 21) :
    ∀ (l : List (Fin 21)), j ∉ l →
    dictFind? (l.filterMap (fun i => if f i > 0 then some (componentName i, f i) else none))
      (componentName j) = none
  | [], _ => by simp [dictFind?]
  | i :: tl, hj => by
    have hij : i ≠ j := by
      intro hcon
      exact hj (by rw [hcon]; simp)
    have hjtl : j ∉ tl := fun hcon => hj (by simp [hcon])
    by_cases hf : f i > 0
    · rw [mixFilter_cons_pos f i tl hf]
      rw [dictFind?_cons]
      have hname : (componentName i == componentName j) = false := by
        have : componentName i ≠ componentName j := by
          intro hcon
          exact hij (componentName_injective i j hcon)
        simpa using this
      rw [hname]
      simp only [Bool.false_eq_true, if_false]
      exact dictFind?_mixResultList_notmem f j tl hjtl
    · rw [mixFilter_cons_neg f i tl hf]
      exact dictFind?_mixResultList_notmem f j tl hjtl

theorem dictFind?_mixResultList_mem (f : Fin 21 → ℚ) (j : Fin 21) :
    ∀ (l : List (Fin 21)), l.Nodup → j ∈ l →
    dictFind? (l.filterMap (fun i => if f i > 0 then some (componentName i, f i) else none))
      (componentName j) = (if f j > 0 then some (f j) else none)
  | [], _, hmem => by cases hmem
  | i :: tl, hnd, hmem => by
    have hnd2 := List.nodup_cons.mp hnd
    rcases List.mem_cons.mp hmem with hji | hjtl
    · subst hji
      by_cases hf : f j > 0
      · rw [mixFilter_cons_pos f j tl hf]
        rw [dictFind?_cons]
        simp [hf]
      · rw [mixFilter_cons_neg f j tl hf]
        rw [dictFind?_mixResultList_notmem f j tl hnd2.1, if_neg hf]
    · have hij : i ≠ j := by
        intro hcon
        rw [hcon] at hnd2
        exact hnd2.1 hjtl
      have hname : (componentName i == componentName j) = false := by
        have : componentName i ≠ componentName j := by
          intro hcon
          exact hij (componentName_injective i j hcon)
        simpa using this
      by_cases hf : f i > 0
      · rw [mixFilter_cons_pos f i tl hf]
        rw [dictFind?_cons, hname]
        simp only [Bool.false_eq_true, if_false]
        exact dictFind?_mixResultList_mem f j tl hnd2.2 hjtl
      · rw [mixFilter_cons_neg f i tl hf]
        exact dictFind?_mixResultList_mem f j tl hnd2.2 hjtl

theorem compVec_mixResultList (f : Fin 21 → ℚ) (j : Fin 21) :
    compVec (mixResultList f) j = if f j > 0 then f j else 0 := by
  rw [compVec, mixResultList]
  rw [dictFind?_mixResultList_mem f j (List.finRange 21) (List.nodup_finRange 21)
    (List.mem_finRange j)]
  by_cases hf : f j > 0
  · rw [if_pos hf, if_pos hf]
    rfl
  · rw [if_neg hf, if_neg hf]
    rfl

theorem mem_mixResultList_key (f : Fin 21 → ℚ) (p : String × ℚ)
    (hp : p ∈ mixResultList f) : p.1 ∈ aga8_components := by
  rw [mixResultList] at hp
  rcases List.mem_filterMap.mp hp with ⟨i, hi, hif⟩
  by_cases hf : f i > 0
  · rw [if_pos hf] at hif
    have hpi : (componentName i, f i) = p := Option.some.inj hif
    rw [← hpi]
    exact componentName_mem i
  · rw [if_neg hf] at hif
    cases hif

theorem mix_component_moles_pair (eq : EOSEquation) (X Y : List (String × ℚ))
    (x y : ℚ) (j : Fin 21) :
    mix_component_moles eq [X, Y] [x, y] j =
      streamMoles eq (compVec X) x j + streamMoles eq (compVec Y) y j := by
  simp [mix_component_moles]

theorem mix_component_moles_triple (eq : EOSEquation) (X Y Z : List (String × ℚ))
    (x y z : ℚ) (j : Fin 21) :
    mix_component_moles eq [X, Y, Z] [x, y, z] j =
      streamMoles eq (compVec X) x j + streamMoles eq (compVec Y) y j +
        streamMoles eq (compVec Z) z j := by
  simp [mix_component_moles]
  ring

/-- The composition of a successful mix result (used to feed one mix result
into another mix call). -/
def mixComposition : MixOutcome → List (String × ℚ)
  | MixOutcome.result comp _ => comp
  | _ => []

theorem sum_list_three (a b c : ℚ) : ([a, b, c] : List ℚ).sum = a + b + c := by
  simp
  ring

theorem sum_list_two (a b : ℚ) : ([a, b] : List ℚ).sum = a + b := by
  simp

/-- C6: mixing is associative / order-independent.  Under the validity
preconditions of each stage (valid compositions; non-negative resulting
moles, non-zero total moles and non-negative total mass both for the
intermediate `[B, C]` mix and for the direct `[A, B, C]` mix), first mixing
`B` and `C` at masses `b, c` and then mixing `A` with that intermediate at
masses `a, b + c` returns exactly the same outcome as mixing `[A, B, C]` at
`[a, b, c]`, and the total mass of both groupings is exactly `a + b + c`. -/
theorem aga8_C6_mix_assoc (eq : EOSEquation) (A B C : List (String × ℚ)) (a b c : ℚ)
    (hkA : ∀ p ∈ A, p.1 ∈ aga8_components) (hnnA : ∀ p ∈ A, 0 ≤ p.2)
    (hsA : rowSum (compVec A) ≠ 0)
    (hkB : ∀ p ∈ B, p.1 ∈ aga8_components) (hnnB : ∀ p ∈ B, 0 ≤ p.2)
    (hsB : rowSum (compVec B) ≠ 0)
    (hkC : ∀ p ∈ C, p.1 ∈ aga8_components) (hnnC : ∀ p ∈ C, 0 ≤ p.2)
    (hsC : rowSum (compVec C) ≠ 0)
    (hmolesBC : ∀ j, 0 ≤ mix_component_moles eq [B, C] [b, c] j)
    (hNBC : (∑ j, mix_component_moles eq [B, C] [b, c] j) ≠ 0)
    (hmassBC : 0 ≤ b + c)
    (hmoles3 : ∀ j, 0 ≤ mix_component_moles eq [A, B, C] [a, b, c] j)
    (hN3 : (∑ j, mix_component_moles eq [A, B, C] [a, b, c] j) ≠ 0)
    (hmass3 : 0 ≤ a + b + c) :
    mix eq false [A, mixComposition (mix eq false [B, C] [b, c])] [a, b + c] =
      mix eq false [A, B, C] [a, b, c] ∧
    mix eq false [A, B, C] [a, b, c] =
      MixOutcome.result
        (mixResultList (fun j => mix_component_moles eq [A, B, C] [a, b, c] j /
          (∑ i, mix_component_moles eq [A, B, C] [a, b, c] i) * 100))
        (a + b + c) := by
  have hdir : mix eq false [A, B, C] [a, b, c] =
      MixOutcome.result
        (mixResultList (fun j => mix_component_moles eq [A, B, C] [a, b, c] j /
          (∑ i, mix_component_moles eq [A, B, C] [a, b, c] i) * 100))
        (([a, b, c] : List ℚ).sum) := by
    apply mix_success
    · simp
    · simp
    · intro c2 hc2 p hp
      rcases List.mem_cons.mp hc2 with h | h
      · exact hkA p (h ▸ hp)
      rcases List.mem_cons.mp h with h2 | h2
      · exact hkB p (h2 ▸ hp)
      · have h3 : c2 = C := by simpa using h2
        exact hkC p (h3 ▸ hp)
    · intro c2 hc2
      rcases List.mem_cons.mp hc2 with h | h
      · rw [h]; exact hsA
      rcases List.mem_cons.mp h with h2 | h2
      · rw [h2]; exact hsB
      · have h3 : c2 = C := by simpa using h2
        rw [h3]; exact hsC
    · exact hmoles3
    · rw [sum_list_three]; exact hmass3
    · exact hN3
  have hBC : mix eq false [B, C] [b, c] =
      MixOutcome.result
        (mixResultList (fun j => mix_component_moles eq [B, C] [b, c] j /
          (∑ i, mix_component_moles eq [B, C] [b, c] i) * 100))
        (([b, c] : List ℚ).sum) := by
    apply mix_success
    · simp
    · simp
    · intro c2 hc2 p hp
      rcases List.mem_cons.mp hc2 with h | h
      · exact hkB p (h ▸ hp)
      · have h3 : c2 = C := by simpa using h
        exact hkC p (h3 ▸ hp)
    · intro c2 hc2
      rcases List.mem_cons.mp hc2 with h | h
      · rw [h]; exact hsB
      · have h3 : c2 = C := by simpa using h
        rw [h3]; exact hsC
    · exact hmolesBC
    · rw [sum_list_two]; exact hmassBC
    · exact hNBC
  have hNBCpos : 0 < ∑ j, mix_component_moles eq [B, C] [b, c] j :=
    lt_of_le_of_ne (Finset.sum_nonneg (fun j _ => hmolesBC j)) (Ne.symm hNBC)
  have hpercnn : ∀ j, 0 ≤ mix_component_moles eq [B, C] [b, c] j /
      (∑ i, mix_component_moles eq [B, C] [b, c] i) * 100 := by
    intro j
    exact mul_nonneg (div_nonneg (hmolesBC j) (le_of_lt hNBCpos)) (by norm_num)
  have hcompD : compVec (mixResultList (fun j => mix_component_moles eq [B, C] [b, c] j /
      (∑ i, mix_component_moles eq [B, C] [b, c] i) * 100)) =
      (fun j => mix_component_moles eq [B, C] [b, c] j /
        (∑ i, mix_component_moles eq [B, C] [b, c] i) * 100) := by
    funext j
    rw [compVec_mixResultList]
    by_cases hp : mix_component_moles eq [B, C] [b, c] j /
        (∑ i, mix_component_moles eq [B, C] [b, c] i) * 100 > 0
    · rw [if_pos hp]
    · rw [if_neg hp]
      exact (le_antisymm (not_lt.mp hp) (hpercnn j)).symm
  have hrowD : rowSum (compVec (mixResultList (fun j =>
      mix_component_moles eq [B, C] [b, c] j /
        (∑ i, mix_component_moles eq [B, C] [b, c] i) * 100))) = 100 := by
    rw [hcompD, rowSum, ← Finset.sum_mul, ← Finset.sum_div, div_self hNBC, one_mul]
  have havgB : avgMW eq (compVec B) ≠ 0 := ne_of_gt (avgMW_pos eq B hnnB hsB)
  have havgC : avgMW eq (compVec C) ≠ 0 := ne_of_gt (avgMW_pos eq C hnnC hsC)
  have hsumMW_BC : ∑ j, mix_component_moles eq [B, C] [b, c] j * molecular_weights eq j =
      (b + c) * 1000 := by
    have h1 : ∀ j : Fin 21, mix_component_moles eq [B, C] [b, c] j * molecular_weights eq j =
        streamMoles eq (compVec B) b j * molecular_weights eq j +
        streamMoles eq (compVec C) c j * molecular_weights eq j := by
      intro j
      rw [mix_component_moles_pair]
      ring
    rw [Finset.sum_congr rfl (fun j _ => h1 j), Finset.sum_add_distrib,
      sum_streamMoles_mul_MW eq _ b havgB, sum_streamMoles_mul_MW eq _ c havgC]
    ring
  have hbc : b + c ≠ 0 := by
    intro hcon
    apply hNBC
    have h0 : ∑ j, mix_component_moles eq [B, C] [b, c] j * molecular_weights eq j = 0 := by
      rw [hsumMW_BC, hcon]
      ring
    have hterms : ∀ j ∈ Finset.univ,
        0 ≤ mix_component_moles eq [B, C] [b, c] j * molecular_weights eq j := by
      intro j hj
      exact mul_nonneg (hmolesBC j) (le_of_lt (molecular_weights_pos eq j))
    have hall := (Finset.sum_eq_zero_iff_of_nonneg hterms).mp h0
    apply Finset.sum_eq_zero
    intro j hj
    rcases mul_eq_zero.mp (hall j hj) with h | h
    · exact h
    · exact absurd h (ne_of_gt (molecular_weights_pos eq j))
  have hbc1000 : (b + c) * 1000 ≠ 0 := mul_ne_zero hbc (by norm_num)
  have hnormD : ∀ j, normRow (compVec (mixResultList (fun j =>
      mix_component_moles eq [B, C] [b, c] j /
        (∑ i, mix_component_moles eq [B, C] [b, c] i) * 100))) j =
      mix_component_moles eq [B, C] [b, c] j /
        (∑ i, mix_component_moles eq [B, C] [b, c] i) := by
    intro j
    rw [normRow, hrowD, hcompD]
    field_simp
    ring
  have havgD : avgMW eq (compVec (mixResultList (fun j =>
      mix_component_moles eq [B, C] [b, c] j /
        (∑ i, mix_component_moles eq [B, C] [b, c] i) * 100))) =
      (b + c) * 1000 / (∑ i, mix_component_moles eq [B, C] [b, c] i) := by
    rw [avgMW, Finset.sum_congr rfl (fun j _ => by rw [hnormD j])]
    have h1 : ∀ j : Fin 21, mix_component_moles eq [B, C] [b, c] j /
        (∑ i, mix_component_moles eq [B, C] [b, c] i) * molecular_weights eq j =
        mix_component_moles eq [B, C] [b, c] j * molecular_weights eq j /
          (∑ i, mix_component_moles eq [B, C] [b, c] i) := by
      intro j
      ring
    rw [Finset.sum_congr rfl (fun j _ => h1 j), ← Finset.sum_div, hsumMW_BC]
  have hstreamD : ∀ j, streamMoles eq (compVec (mixResultList (fun j =>
      mix_component_moles eq [B, C] [b, c] j /
        (∑ i, mix_component_moles eq [B, C] [b, c] i) * 100))) (b + c) j =
      mix_component_moles eq [B, C] [b, c] j := by
    intro j
    rw [streamMoles, hnormD j, havgD]
    rw [div_div_eq_mul_div]
    field_simp
  have hmoles2 : mix_component_moles eq
      [A, mixResultList (fun j => mix_component_moles eq [B, C] [b, c] j /
        (∑ i, mix_component_moles eq [B, C] [b, c] i) * 100)] [a, b + c] =
      mix_component_moles eq [A, B, C] [a, b, c] := by
    funext j
    rw [mix_component_moles_pair, mix_component_moles_triple, hstreamD j,
      mix_component_moles_pair]
    ring
  have hgrp : mix eq false [A, mixResultList (fun j =>
      mix_component_moles eq [B, C] [b, c] j /
        (∑ i, mix_component_moles eq [B, C] [b, c] i) * 100)] [a, b + c] =
      MixOutcome.result
        (mixResultList (fun j => mix_component_moles eq [A, B, C] [a, b, c] j /
          (∑ i, mix_component_moles eq [A, B, C] [a, b, c] i) * 100))
        (([a, b + c] : List ℚ).sum) := by
    have hres := mix_success eq false
      [A, mixResultList (fun j => mix_component_moles eq [B, C] [b, c] j /
        (∑ i, mix_component_moles eq [B, C] [b, c] i) * 100)] [a, b + c]
      (by simp) (by simp)
      (by
        intro c2 hc2 p hp
        rcases List.mem_cons.mp hc2 with h | h
        · exact hkA p (h ▸ hp)
        · have h3 : c2 = mixResultList (fun j => mix_component_moles eq [B, C] [b, c] j /
              (∑ i, mix_component_moles eq [B, C] [b, c] i) * 100) := by simpa using h
          exact mem_mixResultList_key _ p (h3 ▸ hp))
      (by
        intro c2 hc2
        rcases List.mem_cons.mp hc2 with h | h
        · rw [h]; exact hsA
        · have h3 : c2 = mixResultList (fun j => mix_component_moles eq [B, C] [b, c] j /
              (∑ i, mix_component_moles eq [B, C] [b, c] i) * 100) := by simpa using h
          rw [h3, hrowD]
          norm_num)
      (by rw [hmoles2]; exact hmoles3)
      (by rw [sum_list_two]; exact (by linarith [hmass3] : (0 : ℚ) ≤ a + (b + c)))
      (by simp only [hmoles2]; exact hN3)
    rw [hres]
    simp only [hmoles2]
  refine ⟨?_, ?_⟩
  · rw [hBC]
    simp only [mixComposition]
    rw [hgrp, hdir, sum_list_two, sum_list_three]
    congr 1
    ring
  · rw [hdir, sum_list_three]

set_option maxRecDepth 100000 in
unseal Rat.add Rat.mul Rat.inv Rat.sub Rat.ofScientific in
/-- Witness for C6 at A = pure methane, B = half methane half ethane,
C = pure ethane, masses 1, 1, 1 (GERG-2008 weights). -/
theorem aga8_C6_mix_assoc_witness :
    ((∀ p ∈ [("C1", (100 : ℚ))], p.1 ∈ aga8_components) ∧
     (∀ p ∈ [("C1", (100 : ℚ))], 0 ≤ p.2) ∧
     rowSum (compVec [("C1", (100 : ℚ))]) ≠ 0 ∧
     (∀ p ∈ [("C1", (50 : ℚ)), ("C2", 50)], p.1 ∈ aga8_components) ∧
     (∀ p ∈ [("C1", (50 : ℚ)), ("C2", 50)], 0 ≤ p.2) ∧
     rowSum (compVec [("C1", (50 : ℚ)), ("C2", 50)]) ≠ 0 ∧
     (∀ p ∈ [("C2", (100 : ℚ))], p.1 ∈ aga8_components) ∧
     (∀ p ∈ [("C2", (100 : ℚ))], 0 ≤ p.2) ∧
     rowSum (compVec [("C2", (100 : ℚ))]) ≠ 0 ∧
     (∀ j, 0 ≤ mix_component_moles EOSEquation.gerg2008
        [[("C1", (50 : ℚ)), ("C2", 50)], [("C2", (100 : ℚ))]] [1, 1] j) ∧
     (∑ j, mix_component_moles EOSEquation.gerg2008
        [[("C1", (50 : ℚ)), ("C2", 50)], [("C2", (100 : ℚ))]] [1, 1] j) ≠ 0 ∧
     (0 : ℚ) ≤ 1 + 1 ∧
     (∀ j, 0 ≤ mix_component_moles EOSEquation.gerg2008
        [[("C1", (100 : ℚ))], [("C1", (50 : ℚ)), ("C2", 50)], [("C2", (100 : ℚ))]]
        [1, 1, 1] j) ∧
     (∑ j, mix_component_moles EOSEquation.gerg2008
        [[("C1", (100 : ℚ))], [("C1", (50 : ℚ)), ("C2", 50)], [("C2", (100 : ℚ))]]
        [1, 1, 1] j) ≠ 0 ∧
     (0 : ℚ) ≤ 1 + 1 + 1) ∧
    (mix EOSEquation.gerg2008 false
        [[("C1", (100 : ℚ))], mixComposition (mix EOSEquation.gerg2008 false
          [[("C1", (50 : ℚ)), ("C2", 50)], [("C2", (100 : ℚ))]] [1, 1])] [1, 1 + 1] =
      mix EOSEquation.gerg2008 false
        [[("C1", (100 : ℚ))], [("C1", (50 : ℚ)), ("C2", 50)], [("C2", (100 : ℚ))]]
        [1, 1, 1] ∧
     mix EOSEquation.gerg2008 false
        [[("C1", (100 : ℚ))], [("C1", (50 : ℚ)), ("C2", 50)], [("C2", (100 : ℚ))]]
        [1, 1, 1] =
      MixOutcome.result
        (mixResultList (fun j => mix_component_moles EOSEquation.gerg2008
            [[("C1", (100 : ℚ))], [("C1", (50 : ℚ)), ("C2", 50)], [("C2", (100 : ℚ))]]
            [1, 1, 1] j /
          (∑ i, mix_component_moles EOSEquation.gerg2008
            [[("C1", (100 : ℚ))], [("C1", (50 : ℚ)), ("C2", 50)], [("C2", (100 : ℚ))]]
            [1, 1, 1] i) * 100))
        (1 + 1 + 1)) := by
  have h1 : ∀ p ∈ [("C1", (100 : ℚ))], p.1 ∈ aga8_components := by decide
  have h2 : ∀ p ∈ [("C1", (100 : ℚ))], 0 ≤ p.2 := by decide
  have h3 : rowSum (compVec [("C1", (100 : ℚ))]) ≠ 0 := by decide
  have h4 : ∀ p ∈ [("C1", (50 : ℚ)), ("C2", 50)], p.1 ∈ aga8_components := by decide
  have h5 : ∀ p ∈ [("C1", (50 : ℚ)), ("C2", 50)], 0 ≤ p.2 := by decide
  have h6 : rowSum (compVec [("C1", (50 : ℚ)), ("C2", 50)]) ≠ 0 := by decide
  have h7 : ∀ p ∈ [("C2", (100 : ℚ))], p.1 ∈ aga8_components := by decide
  have h8 : ∀ p ∈ [("C2", (100 : ℚ))], 0 ≤ p.2 := by decide
  have h9 : rowSum (compVec [("C2", (100 : ℚ))]) ≠ 0 := by decide
  have h10 : ∀ j, 0 ≤ mix_component_moles EOSEquation.gerg2008
      [[("C1", (50 : ℚ)), ("C2", 50)], [("C2", (100 : ℚ))]] [1, 1] j := by decide
  have h11 : (∑ j, mix_component_moles EOSEquation.gerg2008
      [[("C1", (50 : ℚ)), ("C2", 50)], [("C2", (100 : ℚ))]] [1, 1] j) ≠ 0 := by decide
  have h12 : (0 : ℚ) ≤ 1 + 1 := by norm_num
  have h13 : ∀ j, 0 ≤ mix_component_moles EOSEquation.gerg2008
      [[("C1", (100 : ℚ))], [("C1", (50 : ℚ)), ("C2", 50)], [("C2", (100 : ℚ))]]
      [1, 1, 1] j := by decide
  have h14 : (∑ j, mix_component_moles EOSEquation.gerg2008
      [[("C1", (100 : ℚ))], [("C1", (50 : ℚ)), ("C2", 50)], [("C2", (100 : ℚ))]]
      [1, 1, 1] j) ≠ 0 := by decide
  have h15 : (0 : ℚ) ≤ 1 + 1 + 1 := by norm_num
  exact ⟨⟨h1, h2, h3, h4, h5, h6, h7, h8, h9, h10, h11, h12, h13, h14, h15⟩,
    aga8_C6_mix_assoc EOSEquation.gerg2008 _ _ _ 1 1 1
      h1 h2 h3 h4 h5 h6 h7 h8 h9 h10 h11 h12 h13 h14 h15⟩

/-- C3: evaluation of the unit normalizer on representations of one physical
state.  All pressure units except psia are exactly mutually consistent in
the rational embedding: a physical pressure of `P` kPa expressed in bara,
psi, psig, barg, Pa, MPa or kPa converts back to exactly `P` kPa, and all
temperature units are exactly consistent; but the psia branch adds the
atmospheric offset to an *absolute* value, so the vacuum state 0 kPa
(0 bara, 0 psi, 0 psia) converts from psia to roughly 101.325 kPa instead of
0 kPa — the failing input exhibiting the code bug. -/
theorem aga8_C3_pressure_units :
    (∀ P : ℚ, pressure_unit_conversion (FVal.val (P / 100)) "bara" = Except.ok (FVal.val P)) ∧
    (∀ P : ℚ, pressure_unit_conversion (FVal.val (P / (6.89476 : ℚ))) "psi" =
      Except.ok (FVal.val P)) ∧
    (∀ P : ℚ, pressure_unit_conversion (FVal.val ((P - (101.325 : ℚ)) / (6.89476 : ℚ))) "psig" =
      Except.ok (FVal.val P)) ∧
    (∀ P : ℚ, pressure_unit_conversion (FVal.val ((P - (101.325 : ℚ)) / 100)) "barg" =
      Except.ok (FVal.val P)) ∧
    (∀ P : ℚ, pressure_unit_conversion (FVal.val (P * 1000)) "Pa" = Except.ok (FVal.val P)) ∧
    (∀ P : ℚ, pressure_unit_conversion (FVal.val (P / 1000)) "MPa" = Except.ok (FVal.val P)) ∧
    (∀ P : ℚ, pressure_unit_conversion (FVal.val P) "kPa" = Except.ok (FVal.val P)) ∧
    (∀ T : ℚ, temperature_unit_conversion (FVal.val (T - (273.15 : ℚ))) "C" =
      Except.ok (FVal.val T)) ∧
    (∀ T : ℚ, temperature_unit_conversion (FVal.val ((T - (273.15 : ℚ)) * 9 / 5 + 32)) "F" =
      Except.ok (FVal.val T)) ∧
    (∀ T : ℚ, temperature_unit_conversion (FVal.val T) "K" = Except.ok (FVal.val T)) ∧
    pressure_unit_conversion (FVal.val 0) "psia" =
      Except.ok (FVal.val ((14.6959488 : ℚ) * (6.89476 : ℚ))) ∧
    (14.6959488 : ℚ) * (6.89476 : ℚ) ≠ 0 := by
  refine ⟨?_, ?_, ?_, ?_, ?_, ?_, ?_, ?_, ?_, ?_, ?_, ?_⟩
  · intro P
    rw [pressure_unit_conversion, if_pos (by decide)]
    simp only [FVal.val_mul, Except.ok.injEq, FVal.val.injEq]
    field_simp
  · intro P
    rw [pressure_unit_conversion, if_neg (by decide), if_neg (by decide), if_pos (by decide)]
    simp only [FVal.val_mul, Except.ok.injEq, FVal.val.injEq]
    field_simp
  · intro P
    rw [pressure_unit_conversion, if_neg (by decide), if_neg (by decide), if_neg (by decide),
      if_neg (by decide), if_pos (by decide)]
    simp only [FVal.val_mul, FVal.val_add, Except.ok.injEq, FVal.val.injEq]
    field_simp
  · intro P
    rw [pressure_unit_conversion, if_neg (by decide), if_neg (by decide), if_neg (by decide),
      if_neg (by decide), if_neg (by decide), if_pos (by decide)]
    simp only [FVal.val_mul, FVal.val_add, Except.ok.injEq, FVal.val.injEq]
    field_simp
  · intro P
    rw [pressure_unit_conversion, if_neg (by decide), if_pos (by decide)]
    simp only [FVal.val_div, Except.ok.injEq, FVal.val.injEq]
    field_simp
  · intro P
    rw [pressure_unit_conversion, if_neg (by decide), if_neg (by decide), if_neg (by decide),
      if_neg (by decide), if_neg (by decide), if_neg (by decide), if_pos (by decide)]
    simp only [FVal.val_mul, Except.ok.injEq, FVal.val.injEq]
    field_simp
  · intro P
    rw [pressure_unit_conversion, if_neg (by decide), if_neg (by decide), if_neg (by decide),
      if_neg (by decide), if_neg (by decide), if_neg (by decide), if_neg (by decide),
      if_pos (by decide)]
  · intro T
    rw [temperature_unit_conversion, if_pos (by decide)]
    simp only [FVal.val_add, Except.ok.injEq, FVal.val.injEq]
    ring
  · intro T
    rw [temperature_unit_conversion, if_neg (by decide), if_pos (by decide)]
    simp only [FVal.val_sub, FVal.val_mul, FVal.val_div, FVal.val_add, Except.ok.injEq,
      FVal.val.injEq]
    field_simp
    ring
  · intro T
    rw [temperature_unit_conversion, if_neg (by decide), if_neg (by decide), if_pos (by decide)]
  · rw [pressure_unit_conversion, if_neg (by decide), if_neg (by decide), if_neg (by decide),
      if_pos (by decide)]
    simp only [FVal.val_add, FVal.val_mul, Except.ok.injEq, FVal.val.injEq]
    ring
  · norm_num

/-- Modelled from the spec: the attribute names of the external `pyaga8`
engine adapter enumerated by `AGA8._get_properties` via `dir(self.adapter)`
(the engine itself is not part of this repository; the list follows the
property set documented in the `calculate_from_PT` docstring and spec
section 6, in the alphabetical order `dir` produces). -/
def engineAttrs : List String :=
  ["a", "cp", "cv", "d", "d2p_dd2", "d2p_dtd", "dp_dd", "dp_dt", "g", "h",
   "jt", "kappa", "mm", "pressure", "s", "temperature", "u", "w", "z"]

/-- Embedding of `AGA8._get_properties` (`aga8.py`, lines 69–78): harvest
every engine attribute into a dict, then add the derived convenience fields
`pressure_bara` (pressure over 100) and `temperature_C` (temperature minus
273.15). -/
def get_properties (readAttr : String → FVal) : List (String × FVal) :=
  dictSet
    (dictSet (engineAttrs.map (fun a => (a, readAttr a)))
      "pressure_bara" (readAttr "pressure" / FVal.val 100))
    "temperature_C" (readAttr "temperature" - FVal.val (273.15 : ℚ))

/-- The key set of `_get_properties()` (used by the `NaN` short-circuit of
`calculate_from_PT`, line 250, which builds a dict with these keys all
mapped to `NaN`): the engine attributes plus the two derived fields, which
`dictSet` appends since they are not engine attributes. -/
def propertyKeys : List String :=
  engineAttrs ++ ["pressure_bara", "temperature_C"]

/-- A `calculate_from_*` result: the property dict (including the derived
`rho`) and the echoed normalized gas composition
(`results['gas_composition']`). -/
structure PTResult where
  props : List (String × FVal)
  gas_composition : List (String × FVal)
deriving DecidableEq, Repr

/-- Outcome of a `calculate_from_*` call: a raised Python exception or the
results dict. -/
inductive PTOutcome where
  | raised (msg : String)
  | ok (r : PTResult)
deriving DecidableEq, Repr

/-- Embedding of `AGA8.calculate_from_PT` (`aga8.py`, lines 149–273),
parametrized by the black-box engine read-out `engine pkPa tK fluid attr`
(the value of adapter attribute `attr` after `set_composition(fluid)`,
setting pressure/temperature and running the density and property solves).
Order of effects as in the source: pressure conversion, temperature
conversion, composition mapping (each may raise), then the `NaN`
short-circuit on the converted pressure, converted temperature and the raw
composition values; `rho` is computed from the dict entries `d` and `mm`
(always present) or from the molar-mass override, and the normalized
composition is echoed under `gas_composition`. -/
def calculate_from_PT (engine : FVal → FVal → List (String × FVal) → String → FVal)
    (composition : List (String × FVal)) (pressure temperature : FVal)
    (pressure_unit temperature_unit : String) (molar_mass : Option ℚ) : PTOutcome :=
  match pressure_unit_conversion pressure pressure_unit with
  | .error e => .raised e
  | .ok pressure_kPa =>
  match temperature_unit_conversion temperature temperature_unit with
  | .error e => .raised e
  | .ok temperature_K =>
  match to_aga8_composition composition with
  | MapperOutcome.illegalComponent n => .raised ("Illegal component: " ++ n)
  | MapperOutcome.indexError => .raised "string index out of range"
  | MapperOutcome.valueError => .raised "invalid literal for int() with base 10"
  | MapperOutcome.zeroDivisionError => .raised "float division by zero"
  | MapperOutcome.ok fluidDict =>
    let results :=
      if pressure_kPa.isNan || temperature_K.isNan ||
          composition.any (fun p => p.2.isNan) then
        propertyKeys.map (fun k => (k, FVal.nan))
      else
        get_properties (engine pressure_kPa temperature_K fluidDict)
    let rho := match molar_mass with
      | none => (dictFind? results "d").getD FVal.nan * (dictFind? results "mm").getD FVal.nan
      | some m => (dictFind? results "d").getD FVal.nan * FVal.val m
    PTOutcome.ok ⟨dictSet results "rho" rho, fluidDict⟩

/-- The residual closure of `calculate_from_PH` (`aga8.py`, lines 400–404):
enthalpy at `(P, T)` minus the target.  A raised exception inside the
residual is modelled as `NaN`; this is reachable only for inputs on which
the final `calculate_from_PT` raises the very same exception, so the
modelled outcome of `calculate_from_PH` agrees with the source either way. -/
def ph_residual (engine : FVal → FVal → List (String × FVal) → String → FVal)
    (composition : List (String × FVal)) (pressure : FVal) (pressure_unit : String)
    (molar_mass : Option ℚ) (enthalpy : FVal) : ℚ → FVal :=
  fun t =>
    match calculate_from_PT engine composition pressure (FVal.val t)
        pressure_unit "C" molar_mass with
    | PTOutcome.ok r => (dictFind? r.props "h").getD FVal.nan - enthalpy
    | PTOutcome.raised _ => FVal.nan

/-- The residual closure of `calculate_from_PS` (`aga8.py`, lines 454–458):
entropy at `(P, T)` minus the target. -/
def ps_residual (engine : FVal → FVal → List (String × FVal) → String → FVal)
    (composition : List (String × FVal)) (pressure : FVal) (pressure_unit : String)
    (molar_mass : Option ℚ) (entropy : FVal) : ℚ → FVal :=
  fun t =>
    match calculate_from_PT engine composition pressure (FVal.val t)
        pressure_unit "C" molar_mass with
    | PTOutcome.ok r => (dictFind? r.props "s").getD FVal.nan - entropy
    | PTOutcome.raised _ => FVal.nan

/-- Embedding of `AGA8.calculate_from_PH` (`aga8.py`, lines 360–411),
parametrized by the black-box root finder `solver residual x0` standing for
`scipy.optimize.fsolve`: convert the pressure, short-circuit to an all-`NaN`
dict when pressure, enthalpy or any composition value is `NaN` (the mapper
runs inside that branch, as in the source), otherwise solve the residual
seeded at exactly 20 Celsius and return one full `calculate_from_PT`
evaluation at the solved temperature. -/
def calculate_from_PH (engine : FVal → FVal → List (String × FVal) → String → FVal)
    (solver : (ℚ → FVal) → ℚ → ℚ)
    (composition : List (String × FVal)) (pressure enthalpy : FVal)
    (pressure_unit : String) (molar_mass : Option ℚ) : PTOutcome :=
  match pressure_unit_conversion pressure pressure_unit with
  | .error e => .raised e
  | .ok pressure_kPa =>
    if pressure_kPa.isNan || enthalpy.isNan || composition.any (fun p => p.2.isNan) then
      match to_aga8_composition composition with
      | MapperOutcome.ok fluidDict =>
          PTOutcome.ok ⟨propertyKeys.map (fun k => (k, FVal.nan)), fluidDict⟩
      | MapperOutcome.illegalComponent n => .raised ("Illegal component: " ++ n)
      | MapperOutcome.indexError => .raised "string index out of range"
      | MapperOutcome.valueError => .raised "invalid literal for int() with base 10"
      | MapperOutcome.zeroDivisionError => .raised "float division by zero"
    else
      calculate_from_PT engine composition pressure
        (FVal.val (solver (ph_residual engine composition pressure pressure_unit
          molar_mass enthalpy) 20))
        pressure_unit "C" molar_mass

/-- Embedding of `AGA8.calculate_from_PS` (`aga8.py`, lines 414–465); same
structure as `calculate_from_PH` with the entropy residual. -/
def calculate_from_PS (engine : FVal → FVal → List (String × FVal) → String → FVal)
    (solver : (ℚ → FVal) → ℚ → ℚ)
    (composition : List (String × FVal)) (pressure entropy : FVal)
    (pressure_unit : String) (molar_mass : Option ℚ) : PTOutcome :=
  match pressure_unit_conversion pressure pressure_unit with
  | .error e => .raised e
  | .ok pressure_kPa =>
    if pressure_kPa.isNan || entropy.isNan || composition.any (fun p => p.2.isNan) then
      match to_aga8_composition composition with
      | MapperOutcome.ok fluidDict =>
          PTOutcome.ok ⟨propertyKeys.map (fun k => (k, FVal.nan)), fluidDict⟩
      | MapperOutcome.illegalComponent n => .raised ("Illegal component: " ++ n)
      | MapperOutcome.indexError => .raised "string index out of range"
      | MapperOutcome.valueError => .raised "invalid literal for int() with base 10"
      | MapperOutcome.zeroDivisionError => .raised "float division by zero"
    else
      calculate_from_PT engine composition pressure
        (FVal.val (solver (ps_residual engine composition pressure pressure_unit
          molar_mass entropy) 20))
        pressure_unit "C" molar_mass

theorem pressure_unit_conversion_nan (u : String) (pk : FVal)
    (h : pressure_unit_conversion FVal.nan u = Except.ok pk) : pk = FVal.nan := by
  rw [pressure_unit_conversion] at h
  split_ifs at h <;> simp_all

theorem temperature_unit_conversion_nan (u : String) (tk : FVal)
    (h : temperature_unit_conversion FVal.nan u = Except.ok tk) : tk = FVal.nan := by
  rw [temperature_unit_conversion] at h
  split_ifs at h <;> simp_all

/-- C2: for every composition accepted by the mapper and any single `NaN`
input — `NaN` pressure, `NaN` temperature, or any one `NaN` composition
value — `calculate_from_PT` raises nothing and returns a result in which
every entry of the property dict (including the derived `rho`) is `NaN`,
while the echoed `gas_composition` is exactly the mapper dict, not replaced
by `NaN`. -/
theorem aga8_C2_nan_propagation
    (engine : FVal → FVal → List (String × FVal) → String → FVal)
    (composition : List (String × FVal)) (pressure temperature : FVal)
    (p_unit t_unit : String) (molar_mass : Option ℚ)
    (fluidDict : List (String × FVal)) (pk tk : FVal)
    (hmap : to_aga8_composition composition = MapperOutcome.ok fluidDict)
    (hp : pressure_unit_conversion pressure p_unit = Except.ok pk)
    (ht : temperature_unit_conversion temperature t_unit = Except.ok tk)
    (hnan : pressure = FVal.nan ∨ temperature = FVal.nan ∨
      ∃ q ∈ composition, q.2 = FVal.nan) :
    ∃ props, calculate_from_PT engine composition pressure temperature p_unit t_unit
        molar_mass = PTOutcome.ok ⟨props, fluidDict⟩ ∧
      ∀ q ∈ props, q.2 = FVal.nan := by
  have hcond : (pk.isNan || tk.isNan || composition.any (fun p => p.2.isNan)) = true := by
    rcases hnan with h | h | ⟨q, hq, hqn⟩
    · rw [h] at hp
      rw [pressure_unit_conversion_nan _ _ hp]
      simp
    · rw [h] at ht
      rw [temperature_unit_conversion_nan _ _ ht]
      simp
    · have : composition.any (fun p => p.2.isNan) = true :=
        List.any_eq_true.mpr ⟨q, hq, by rw [hqn]; rfl⟩
      rw [this]
      simp
  refine ⟨dictSet (propertyKeys.map (fun k => (k, FVal.nan))) "rho"
    (match molar_mass with
     | none => (dictFind? (propertyKeys.map (fun k => (k, FVal.nan))) "d").getD FVal.nan *
         (dictFind? (propertyKeys.map (fun k => (k, FVal.nan))) "mm").getD FVal.nan
     | some m => (dictFind? (propertyKeys.map (fun k => (k, FVal.nan))) "d").getD FVal.nan *
         FVal.val m), ?_, ?_⟩
  · rw [calculate_from_PT, hp, ht, hmap]
    simp only [hcond, if_true]
  · intro q hq
    have hnanmap : ∀ q2 ∈ propertyKeys.map (fun k => (k, FVal.nan)), q2.2 = FVal.nan := by
      intro q2 hq2
      rcases List.mem_map.mp hq2 with ⟨k, hk, hkq⟩
      rw [← hkq]
    have hd : (dictFind? (propertyKeys.map (fun k => (k, FVal.nan))) "d").getD FVal.nan =
        FVal.nan := by
      cases hf : dictFind? (propertyKeys.map (fun k => (k, FVal.nan))) "d" with
      | none => rfl
      | some v =>
        rcases dictFind?_mem _ _ _ hf with ⟨p, hp2, hpv⟩
        rw [Option.getD_some, ← hpv]
        exact hnanmap p hp2
    rcases mem_dictSet _ _ _ _ hq with h | h
    · rw [h]
      cases molar_mass with
      | none =>
        simp only []
        rw [hd]
        rfl
      | some m =>
        simp only []
        rw [hd]
        rfl
    · exact hnanmap q h

deriving instance DecidableEq for Except

set_option maxRecDepth 10000 in
unseal Rat.add Rat.mul Rat.inv Rat.sub Rat.ofScientific in
/-- Witness for C2: methane composition whose single value is `NaN`, with
finite pressure and temperature in the default units. -/
theorem aga8_C2_nan_propagation_witness :
    (to_aga8_composition [("C1", FVal.nan)] =
      MapperOutcome.ok (dictSet aga8_initial_dict "C1" FVal.nan)) ∧
    (pressure_unit_conversion (FVal.val 10) "bara" = Except.ok (FVal.val 1000)) ∧
    (temperature_unit_conversion (FVal.val 20) "C" = Except.ok (FVal.val (293.15 : ℚ))) ∧
    (FVal.val 10 = FVal.nan ∨ FVal.val 20 = FVal.nan ∨
      ∃ q ∈ [("C1", FVal.nan)], q.2 = FVal.nan) ∧
    (∃ props, calculate_from_PT (fun _ _ _ _ => FVal.val 0) [("C1", FVal.nan)]
        (FVal.val 10) (FVal.val 20) "bara" "C" none =
        PTOutcome.ok ⟨props, dictSet aga8_initial_dict "C1" FVal.nan⟩ ∧
      ∀ q ∈ props, q.2 = FVal.nan) := by
  have h1 : to_aga8_composition [("C1", FVal.nan)] =
      MapperOutcome.ok (dictSet aga8_initial_dict "C1" FVal.nan) := by decide
  have h2 : pressure_unit_conversion (FVal.val 10) "bara" = Except.ok (FVal.val 1000) := by
    decide
  have h3 : temperature_unit_conversion (FVal.val 20) "C" =
      Except.ok (FVal.val (293.15 : ℚ)) := by decide
  have h4 : FVal.val 10 = FVal.nan ∨ FVal.val 20 = FVal.nan ∨
      ∃ q ∈ [("C1", FVal.nan)], q.2 = FVal.nan := by
    right
    right
    exact ⟨("C1", FVal.nan), by simp, rfl⟩
  exact ⟨h1, h2, h3, h4,
    aga8_C2_nan_propagation _ _ _ _ _ _ none _ _ _ h1 h2 h3 h4⟩

theorem mapperGo_illegal (S : FVal) (hS : ¬ (S = FVal.val 0)) :
    ∀ (entries : List (String × FVal)) (d : List (String × FVal)), goodKeys d →
    (∀ p ∈ entries, (∃ ek, claimedKeyTarget p.1 = KeyTarget.assign ek) ∨
      (∃ n, claimedKeyTarget p.1 = KeyTarget.illegal n)) →
    (∃ p ∈ entries, ∃ n, claimedKeyTarget p.1 = KeyTarget.illegal n) →
    ∃ n, mapperGo S d entries = MapperOutcome.illegalComponent n
  | [], d, _, _, hbad => by
    rcases hbad with ⟨p, hp, _⟩
    cases hp
  | (k, v) :: tl, d, hg, hok, hbad => by
    have hres := resolveKeyWith_goodKeys d hg k
    rcases hok (k, v) (by simp) with ⟨ek, hek⟩ | ⟨n, hn⟩
    · simp only [] at hek
      rw [hek] at hres
      have hstep : mapperGo S d ((k, v) :: tl) =
          mapperGo S (dictSet d ek (v / S)) tl := by
        simp [mapperGo, hS, hres]
      have hbad2 : ∃ p ∈ tl, ∃ n, claimedKeyTarget p.1 = KeyTarget.illegal n := by
        rcases hbad with ⟨p, hp, n, hn⟩
        rcases List.mem_cons.mp hp with h | h
        · subst h
          simp only [] at hn
          rw [hek] at hn
          cases hn
        · exact ⟨p, h, n, hn⟩
      have hg2 : goodKeys (dictSet d ek (v / S)) :=
        goodKeys_dictSet d hg ek (claimedKeyTarget_assign_mem k ek hek) _
      rcases mapperGo_illegal S hS tl (dictSet d ek (v / S)) hg2
        (fun p hp => hok p (by simp [hp])) hbad2 with ⟨n, hres2⟩
      exact ⟨n, by rw [hstep]; exact hres2⟩
    · simp only [] at hn
      rw [hn] at hres
      exact ⟨n, by simp [mapperGo, hS, hres]⟩

theorem to_aga8_composition_illegal (composition : List (String × FVal))
    (hsum : sumFVals (composition.map (·.2)) ≠ FVal.val 0)
    (hok : ∀ p ∈ composition, (∃ ek, claimedKeyTarget p.1 = KeyTarget.assign ek) ∨
      (∃ n, claimedKeyTarget p.1 = KeyTarget.illegal n))
    (hbad : ∃ p ∈ composition, ∃ n, claimedKeyTarget p.1 = KeyTarget.illegal n) :
    ∃ n, to_aga8_composition composition = MapperOutcome.illegalComponent n := by
  rw [to_aga8_composition]
  exact mapperGo_illegal _ hsum composition aga8_initial_dict goodKeys_initial hok hbad

theorem to_aga8_composition_zero_sum (composition : List (String × FVal))
    (hne : composition ≠ [])
    (hz : sumFVals (composition.map (·.2)) = FVal.val 0) :
    to_aga8_composition composition = MapperOutcome.zeroDivisionError := by
  rw [to_aga8_composition, hz]
  cases composition with
  | nil => exact absurd rfl hne
  | cons p rest =>
    obtain ⟨k, v⟩ := p
    simp [mapperGo]

/-- C10 (amended): composition processing in `calculate_from_PT` runs before
the `NaN` short-circuit, but the raised exception is not always the
invalid-component error.  For every composition with ASCII keys (the domain
on which the mapper embedding is exact) whose keys are all either routed to
an engine assignment or plainly unrecognized (the invalid-component branch):
when the value sum differs from exact zero and at least one key is
unrecognized, the call raises the invalid-component error — for arbitrary
pressure and temperature values, in particular `NaN` ones, and with `NaN`
composition values; when the value sum is exactly zero, the per-entry
division by the composition sum raises `ZeroDivisionError` before any name
of an entry is validated (this branch refutes the original claim, see the
counterexample), still ahead of the `NaN` short-circuit. -/
theorem aga8_C10_validation_before_nan
    (engine : FVal → FVal → List (String × FVal) → String → FVal)
    (composition : List (String × FVal)) (pressure temperature : FVal)
    (p_unit t_unit : String) (molar_mass : Option ℚ) (pk tk : FVal)
    (hp : pressure_unit_conversion pressure p_unit = Except.ok pk)
    (ht : temperature_unit_conversion temperature t_unit = Except.ok tk)
    (hascii : ∀ p ∈ composition, ∀ c ∈ p.1.toList, c.toNat < 128)
    (hok : ∀ p ∈ composition, (∃ ek, claimedKeyTarget p.1 = KeyTarget.assign ek) ∨
      (∃ n, claimedKeyTarget p.1 = KeyTarget.illegal n))
    (hbad : ∃ p ∈ composition, ∃ n, claimedKeyTarget p.1 = KeyTarget.illegal n) :
    (sumFVals (composition.map (·.2)) ≠ FVal.val 0 →
      ∃ n, calculate_from_PT engine composition pressure temperature p_unit t_unit
        molar_mass = PTOutcome.raised ("Illegal component: " ++ n)) ∧
    (sumFVals (composition.map (·.2)) = FVal.val 0 →
      calculate_from_PT engine composition pressure temperature p_unit t_unit
        molar_mass = PTOutcome.raised "float division by zero") := by
  constructor
  · intro hsum
    rcases to_aga8_composition_illegal composition hsum hok hbad with ⟨n, hmap⟩
    refine ⟨n, ?_⟩
    rw [calculate_from_PT, hp, ht, hmap]
  · intro hz
    rcases hbad with ⟨p, hpmem, _⟩
    have hne : composition ≠ [] := List.ne_nil_of_mem hpmem
    rw [calculate_from_PT, hp, ht, to_aga8_composition_zero_sum composition hne hz]

set_option maxRecDepth 10000 in
unseal Rat.add Rat.mul Rat.inv Rat.sub Rat.ofScientific in
/-- Witness for C10: with a nonzero value sum, `NaN` pressure does not mask
the unrecognized component name XYZ. -/
theorem aga8_C10_validation_before_nan_witness :
    (pressure_unit_conversion FVal.nan "bara" = Except.ok FVal.nan) ∧
    (temperature_unit_conversion (FVal.val 20) "C" = Except.ok (FVal.val (293.15 : ℚ))) ∧
    (∀ p ∈ [("C1", FVal.val 90), ("XYZ", FVal.val 10)],
      ∀ c ∈ p.1.toList, c.toNat < 128) ∧
    (sumFVals ([("C1", FVal.val 90), ("XYZ", FVal.val 10)].map (·.2)) ≠ FVal.val 0) ∧
    (∀ p ∈ [("C1", FVal.val 90), ("XYZ", FVal.val 10)],
      (∃ ek, claimedKeyTarget p.1 = KeyTarget.assign ek) ∨
      (∃ n, claimedKeyTarget p.1 = KeyTarget.illegal n)) ∧
    (∃ p ∈ [("C1", FVal.val 90), ("XYZ", FVal.val 10)], ∃ n,
      claimedKeyTarget p.1 = KeyTarget.illegal n) ∧
    (∃ n, calculate_from_PT (fun _ _ _ _ => FVal.val 0)
        [("C1", FVal.val 90), ("XYZ", FVal.val 10)] FVal.nan (FVal.val 20) "bara" "C"
        none = PTOutcome.raised ("Illegal component: " ++ n)) := by
  have h1 : pressure_unit_conversion FVal.nan "bara" = Except.ok FVal.nan := by decide
  have h2 : temperature_unit_conversion (FVal.val 20) "C" =
      Except.ok (FVal.val (293.15 : ℚ)) := by decide
  have h3 : sumFVals ([("C1", FVal.val 90), ("XYZ", FVal.val 10)].map (·.2)) ≠
      FVal.val 0 := by decide
  have h4 : ∀ p ∈ [("C1", FVal.val 90), ("XYZ", FVal.val 10)],
      (∃ ek, claimedKeyTarget p.1 = KeyTarget.assign ek) ∨
      (∃ n, claimedKeyTarget p.1 = KeyTarget.illegal n) := by
    intro p hp
    rcases List.mem_cons.mp hp with h | h
    · subst h
      exact Or.inl ⟨"C1", by decide⟩
    · have h5 : p = ("XYZ", FVal.val 10) := by simpa using h
      subst h5
      exact Or.inr ⟨"XYZ", by decide⟩
  have h5 : ∃ p ∈ [("C1", FVal.val 90), ("XYZ", FVal.val 10)], ∃ n,
      claimedKeyTarget p.1 = KeyTarget.illegal n :=
    ⟨("XYZ", FVal.val 10), by simp, "XYZ", by decide⟩
  have h6 : ∀ p ∈ [("C1", FVal.val 90), ("XYZ", FVal.val 10)],
      ∀ c ∈ p.1.toList, c.toNat < 128 := by decide
  exact ⟨h1, h2, h6, h3, h4, h5,
    (aga8_C10_validation_before_nan _ _ _ _ _ _ none _ _ h1 h2 h6 h4 h5).1 h3⟩

theorem raised_float_div_ne_illegal (n : String) :
    PTOutcome.raised "float division by zero" ≠
      PTOutcome.raised ("Illegal component: " ++ n) := by
  intro h
  have h1 : "float division by zero" = "Illegal component: " ++ n :=
    PTOutcome.raised.inj h
  have h2 := congrArg String.data h1
  rw [String.data_append] at h2
  rw [(by decide : "float division by zero".data =
      'f' :: "loat division by zero".data)] at h2
  rw [(by decide : "Illegal component: ".data =
      'I' :: "llegal component: ".data)] at h2
  rw [List.cons_append] at h2
  exact absurd (List.cons.inj h2).1 (by decide)

set_option maxRecDepth 10000 in
unseal Rat.add Rat.mul Rat.inv Rat.sub Rat.ofScientific in
/-- Counterexample for C10 as stated: the composition mapping the single name
XYZ to the value 0.0 contains an unrecognized component name, yet with `NaN`
pressure the call does not raise the invalid-component error — each entry's
value is divided by the composition sum (here exactly zero) before its name
is examined, so the first loop iteration raises `ZeroDivisionError`
instead. -/
theorem aga8_C10_counterexample :
    "XYZ" ∉ aga8_components ∧
    calculate_from_PT (fun _ _ _ _ => FVal.val 0) [("XYZ", FVal.val 0)] FVal.nan
      (FVal.val 20) "bara" "C" none = PTOutcome.raised "float division by zero" ∧
    ∀ n, calculate_from_PT (fun _ _ _ _ => FVal.val 0) [("XYZ", FVal.val 0)] FVal.nan
      (FVal.val 20) "bara" "C" none ≠ PTOutcome.raised ("Illegal component: " ++ n) := by
  have h0 : calculate_from_PT (fun _ _ _ _ => FVal.val 0) [("XYZ", FVal.val 0)] FVal.nan
      (FVal.val 20) "bara" "C" none = PTOutcome.raised "float division by zero" := by
    decide
  refine ⟨by decide, h0, ?_⟩
  intro n
  rw [h0]
  exact raised_float_div_ne_illegal n

/-- C9: for non-`NaN` inputs, `calculate_from_PH` returns exactly one full
`calculate_from_PT` evaluation at the temperature produced by the abstract
root finder applied to the enthalpy residual `h(P, T) - target` seeded at
exactly 20 Celsius (with no bracketing or bounds in the call), and
`calculate_from_PS` does the same with the entropy residual — the returned
property set is a complete `from_PT` result, never an intermediate
iterate. -/
theorem aga8_C9_inverse_solvers
    (engine : FVal → FVal → List (String × FVal) → String → FVal)
    (solver : (ℚ → FVal) → ℚ → ℚ)
    (composition : List (String × FVal)) (pressure enthalpy entropy : FVal)
    (p_unit : String) (molar_mass : Option ℚ) (pk : FVal)
    (hp : pressure_unit_conversion pressure p_unit = Except.ok pk)
    (hpn : pk.isNan = false) (hh : enthalpy.isNan = false) (hs : entropy.isNan = false)
    (hc : composition.any (fun p => p.2.isNan) = false) :
    calculate_from_PH engine solver composition pressure enthalpy p_unit molar_mass =
      calculate_from_PT engine composition pressure
        (FVal.val (solver (ph_residual engine composition pressure p_unit molar_mass
          enthalpy) 20)) p_unit "C" molar_mass ∧
    calculate_from_PS engine solver composition pressure entropy p_unit molar_mass =
      calculate_from_PT engine composition pressure
        (FVal.val (solver (ps_residual engine composition pressure p_unit molar_mass
          entropy) 20)) p_unit "C" molar_mass := by
  constructor
  · simp [calculate_from_PH, hp, hpn, hh, hc]
  · simp [calculate_from_PS, hp, hpn, hs, hc]

set_option maxRecDepth 10000 in
unseal Rat.add Rat.mul Rat.inv Rat.sub Rat.ofScientific in
/-- Witness for C9 with a concrete solver (returning its seed) and a
constant engine, on pure methane at 50 bara. -/
theorem aga8_C9_inverse_solvers_witness :
    (pressure_unit_conversion (FVal.val 50) "bara" = Except.ok (FVal.val 5000)) ∧
    ((FVal.val 5000).isNan = false) ∧
    ((FVal.val 0).isNan = false) ∧
    (([("C1", FVal.val 100)].any (fun p => p.2.isNan)) = false) ∧
    (calculate_from_PH (fun _ _ _ _ => FVal.val 0) (fun _ x0 => x0)
        [("C1", FVal.val 100)] (FVal.val 50) (FVal.val 0) "bara" none =
      calculate_from_PT (fun _ _ _ _ => FVal.val 0) [("C1", FVal.val 100)] (FVal.val 50)
        (FVal.val ((fun _ x0 => x0 : (ℚ → FVal) → ℚ → ℚ)
          (ph_residual (fun _ _ _ _ => FVal.val 0) [("C1", FVal.val 100)] (FVal.val 50)
            "bara" none (FVal.val 0)) 20)) "bara" "C" none ∧
     calculate_from_PS (fun _ _ _ _ => FVal.val 0) (fun _ x0 => x0)
        [("C1", FVal.val 100)] (FVal.val 50) (FVal.val 0) "bara" none =
      calculate_from_PT (fun _ _ _ _ => FVal.val 0) [("C1", FVal.val 100)] (FVal.val 50)
        (FVal.val ((fun _ x0 => x0 : (ℚ → FVal) → ℚ → ℚ)
          (ps_residual (fun _ _ _ _ => FVal.val 0) [("C1", FVal.val 100)] (FVal.val 50)
            "bara" none (FVal.val 0)) 20)) "bara" "C" none) := by
  have h1 : pressure_unit_conversion (FVal.val 50) "bara" = Except.ok (FVal.val 5000) := by
    decide
  have h2 : (FVal.val (5000 : ℚ)).isNan = false := rfl
  have h3 : (FVal.val (0 : ℚ)).isNan = false := rfl
  have h4 : ([("C1", FVal.val 100)].any (fun p => p.2.isNan)) = false := by decide
  exact ⟨h1, h2, h3, h4,
    aga8_C9_inverse_solvers _ _ _ _ _ _ _ none _ h1 h2 h3 h3 h4⟩
